import Mathlib

/-!
# The DOM parse session of libxml++ (`libxml++/parsers/domparser.cc`)

A shallow embedding of `xmlpp::DomParser`: the session state (`doc_`, `context_`,
`xinclude_options_`), the three entry points `parse_file`, `parse_memory_raw` and
`parse_stream`, the shared steps `parse_context` and
`check_xinclude_and_finish_parsing`, and `release_underlying`.

The XML engine (libxml2) is external.  Every answer it gives during one parse call is a
field of `Engine`, and the theorems quantify over all engines.  Every call the session
makes into the engine is appended to the ghost field `DomParser.calls`, so that the order
and the arguments of the calls can be stated.

C `int` values are embedded as `Int`.  The only arithmetic on them is bitwise
(`|`, `&`, `~`) and comparison, which cannot overflow; `Int.lor`, `Int.land` and
`Int.lnot` are the two's complement operations.  Sizes are `size_t` values, embedded as
`Nat`; where one is passed to an `int size` parameter of the engine it goes through
`narrow_int`, the conversion modulo 2^32.

Left out of the embedding: `KeepBlanks k(KeepBlanks::Default)` and `xmlResetLastError()`,
which set process-wide engine configuration that nothing below reads, and the
constructor `DomParser(filename, validate)`, which is `parse_file` on a session without
Document.
-/

set_option linter.dupNamespace false

namespace xmlpp

/-! ## Data model -/

/-- One byte of input (`char` of a `std::string`, `unsigned char` of a raw buffer). -/
abbrev Byte := Fin 256

/-- The line separator of `std::getline`, the byte `'\n'`. -/
def newline : Byte := 10

/-- Identity of an engine-native tree (an `xmlDoc*` that is not null). -/
abbrev Tree := Nat

/-- The fields of libxml2's `xmlParserCtxt` that the session reads or writes. -/
structure ParserCtxt where
  myDoc : Option Tree
  directory : Option String
deriving DecidableEq, Repr

/-- Modelled from the spec: the `Document` class (document.h, document.cc) is missing from
the sources at hand.  A Document wraps the engine-native tree pointer it is constructed
from (`impl_`) and owns that tree until the Document is deleted. -/
structure Document where
  impl_ : Option Tree
deriving DecidableEq, Repr

/-- What a call can throw.  `internal_error` and `parse_error` are the two exception
classes thrown by domparser.cc itself; `callback` is an exception stored by an engine
callback and re-thrown by `check_for_exception`; `null_dereference` marks the undefined
behaviour of dereferencing a null `context_`. -/
inductive Exc where
  | internal_error (what : String)
  | parse_error (what : String)
  | callback (what : String)
  | null_dereference
deriving DecidableEq, Repr

/-- A call made by the session into the engine, or the deletion of a Document. -/
inductive Event where
  | xmlCreateFileParserCtxt (filename : String)
  | xmlCreateMemoryParserCtxt (contents : List Byte) (size : Int)
  | xmlCreatePushParserCtxt
  | xmlParseDocument
  | xmlParseChunk (chunk : List Byte) (size : Int) (terminate : Int)
  | xmlXIncludeProcessFlags (doc : Option Tree) (options : Int)
  | deleteDocument (d : Document)
  | xmlFreeDoc (t : Tree)
  | xmlFreeParserCtxt (c : ParserCtxt)
deriving DecidableEq, Repr

/-- The session: the members of `DomParser` (and of its base `Parser`) used by
domparser.cc, and the ghost log `calls` of the engine calls made so far. -/
structure DomParser where
  doc_ : Option Document
  context_ : Option ParserCtxt
  xinclude_options_ : Int
  calls : List Event
deriving DecidableEq, Repr

/-- The answers of the code outside domparser.cc during one parse call: libxml2, and the
helpers of the base class `Parser` and of the exception module that are missing from the
sources at hand (`get_parser_options`, `check_for_exception`, `format_xml_error`,
`format_xml_parser_error`). -/
structure Engine where
  /-- Result of `xmlCreateFileParserCtxt`, `xmlCreateMemoryParserCtxt` or
  `xmlCreatePushParserCtxt`; `none` is the null pointer. -/
  ctxt : Option ParserCtxt
  /-- Result of `xmlParserGetDirectory(filename)`. -/
  directory : Option String
  /-- The tree the engine attaches to the context (`myDoc`) while it parses. -/
  myDoc : Option Tree
  /-- Return code of `xmlParseDocument`. -/
  parseDocument : Int
  /-- Return code of the k-th call of `xmlParseChunk` (counted from 0). -/
  parseChunk : Nat → Int
  /-- The exception `check_for_exception` re-throws, if one is pending. -/
  pending : Option Exc
  /-- Result of `format_xml_parser_error(context_)`, the aggregated diagnostic. -/
  parser_error : String
  /-- Result of `format_xml_error()`. -/
  xml_error : String
  /-- First output of `get_parser_options`. -/
  set_options : Int
  /-- Second output of `get_parser_options`. -/
  clear_options : Int
  /-- Return value of `xmlXIncludeProcessFlags`. -/
  n_substitutions : Int

/-- Outcome of a member function that can throw: the exception, if any, and the session
as the caller finds it afterwards. -/
structure Ret where
  thrown : Option Exc
  self : DomParser
deriving DecidableEq, Repr

/-! ## Constants of libxml2 -/

/-- `XML_PARSE_XINCLUDE = 1<<10` (libxml/parser.h). -/
def XML_PARSE_XINCLUDE : Int := 1024

/-- `XML_PARSE_NOXINCNODE = 1<<15` (libxml/parser.h). -/
def XML_PARSE_NOXINCNODE : Int := 32768

/-- `XML_PARSE_NOBASEFIX = 1<<18` (libxml/parser.h). -/
def XML_PARSE_NOBASEFIX : Int := 262144

/-- `XML_ERR_OK = 0` (libxml/xmlerror.h). -/
def XML_ERR_OK : Int := 0

/-! ## Conversion of sizes -/

/-- The implicit conversion of a `size_t` value to `int`, made where `line.size()` and
`bytes_count` are passed to the `int size` parameter of `xmlParseChunk` and of
`xmlCreateMemoryParserCtxt`: the value modulo 2^32, read as a 32-bit two's complement
number. Values below 2^31 are kept; 2^31 becomes -2^31. -/
def narrow_int (n : Nat) : Int :=
  ((n : Int) + 2147483648) % 4294967296 - 2147483648

/-! ## Construction, options and queries -/

/-- `DomParser::DomParser()`: `doc_ = new Document()`.  The argument `empty_doc` is the
Document that `new Document()` returns; `xinclude_options` is the initial value of the
member, which the constructor does not assign. -/
def DomParser.DomParser (empty_doc : Document) (xinclude_options : Int) : DomParser :=
  { doc_ := some empty_doc, context_ := none, xinclude_options_ := xinclude_options,
    calls := [] }

/-- `DomParser::set_xinclude_options`. -/
def set_xinclude_options (process_xinclude generate_xinclude_nodes fixup_base_uris : Bool)
    (s : DomParser) : DomParser :=
  let o : Int := 0
  let o := if process_xinclude then Int.lor o XML_PARSE_XINCLUDE else o
  let o := if !generate_xinclude_nodes then Int.lor o XML_PARSE_NOXINCNODE else o
  let o := if !fixup_base_uris then Int.lor o XML_PARSE_NOBASEFIX else o
  { s with xinclude_options_ := o }

/-- `DomParser::operator bool`. -/
def operator_bool (s : DomParser) : Bool :=
  s.doc_ != none

/-- `DomParser::get_document`. -/
def get_document (s : DomParser) : Option Document :=
  s.doc_

/-! ## Release -/

/-- Modelled from the spec: `Parser::release_underlying` (parser.cc) is missing from the
sources at hand.  Spec 4.1, Release: it destroys any live ParseContext "and its
still-owned tree, if the context was never finished"; with no live context it does
nothing. -/
def Parser.release_underlying (s : DomParser) : DomParser :=
  match s.context_ with
  | none => s
  | some c =>
    let frees := match c.myDoc with
      | some t => [Event.xmlFreeDoc t]
      | none => []
    { s with context_ := none, calls := s.calls ++ frees ++ [Event.xmlFreeParserCtxt c] }

/-- `DomParser::release_underlying`. -/
def release_underlying (s : DomParser) : DomParser :=
  let s := match s.doc_ with
    | some d => { s with doc_ := none, calls := s.calls ++ [Event.deleteDocument d] }
    | none => s
  Parser.release_underlying s

/-! ## The finish step -/

/-- Lines 167-174 of `check_xinclude_and_finish_parsing`: the Document takes the tree of
the context `c`, `context_->myDoc` is cleared, and the context is released. -/
def finish_parsing (c : ParserCtxt) (s : DomParser) : DomParser :=
  let s := { s with doc_ := some (Document.mk c.myDoc) }
  let s := { s with context_ := some { c with myDoc := none } }
  Parser.release_underlying s

/-- `DomParser::check_xinclude_and_finish_parsing`. -/
def check_xinclude_and_finish_parsing (e : Engine) (s : DomParser) : Ret :=
  match s.context_ with
  | none => ⟨some Exc.null_dereference, s⟩
  | some c =>
    let set_options := e.set_options
    let clear_options := e.clear_options
    let options := s.xinclude_options_
    let options := Int.lor options set_options
    let options := Int.land options (Int.lnot clear_options)
    if Int.land options XML_PARSE_XINCLUDE ≠ 0 then
      let s := { s with calls := s.calls ++ [Event.xmlXIncludeProcessFlags c.myDoc options] }
      let n_substitutions := e.n_substitutions
      if n_substitutions < 0 then
        ⟨some (Exc.parse_error ("Couldn't process XInclude\n" ++ e.xml_error)), s⟩
      else
        ⟨none, finish_parsing c s⟩
    else
      ⟨none, finish_parsing c s⟩

/-! ## The whole-input entry points -/

/-- Modelled from the spec: `Parser::initialize_context` (parser.cc) is missing from the
sources at hand.  It is generic engine configuration, which the spec (section 1) puts out
of scope of the parse lifecycle: the context handle and its tree reference are unchanged. -/
def initialize_context (s : DomParser) : DomParser := s

/-- The call `xmlParseDocument(context_)`: the call is logged, the engine attaches its
tree to the context, and the return code is the engine's answer. -/
def xmlParseDocument (e : Engine) (s : DomParser) : Int × DomParser :=
  (e.parseDocument,
   { s with context_ := s.context_.map (fun c => { c with myDoc := e.myDoc }),
            calls := s.calls ++ [Event.xmlParseDocument] })

/-- `DomParser::parse_context`. -/
def parse_context (e : Engine) (s : DomParser) : Ret :=
  let s := initialize_context s
  match s.context_ with
  | none => ⟨some (Exc.internal_error ("Parser context not initialized\n" ++ e.xml_error)), s⟩
  | some _ =>
    let r := xmlParseDocument e s
    let parseError := r.1
    let s := r.2
    match e.pending with
    | some ex => ⟨some ex, release_underlying s⟩
    | none =>
      let error_str := e.parser_error
      let error_str :=
        if error_str = "" ∧ parseError = -1 then "xmlParseDocument() failed." else error_str
      if error_str ≠ "" then
        ⟨some (Exc.parse_error error_str), release_underlying s⟩
      else
        check_xinclude_and_finish_parsing e s

/-- The assignment `context_ = xmlCreateFileParserCtxt(filename.c_str())`. -/
def xmlCreateFileParserCtxt (e : Engine) (filename : String) (s : DomParser) : DomParser :=
  { s with context_ := e.ctxt, calls := s.calls ++ [Event.xmlCreateFileParserCtxt filename] }

/-- The assignment `context_ = xmlCreateMemoryParserCtxt((const char*)contents, bytes_count)`;
`contents` is the byte range `contents[0 .. bytes_count)`, so `bytes_count` is
`contents.length`, and it is converted to the `int size` of the engine. -/
def xmlCreateMemoryParserCtxt (e : Engine) (contents : List Byte) (s : DomParser) :
    DomParser :=
  { s with context_ := e.ctxt,
           calls := s.calls ++
             [Event.xmlCreateMemoryParserCtxt contents (narrow_int contents.length)] }

/-- The assignment `context_ = xmlCreatePushParserCtxt(nullptr, nullptr, nullptr, 0, nullptr)`. -/
def xmlCreatePushParserCtxt (e : Engine) (s : DomParser) : DomParser :=
  { s with context_ := e.ctxt, calls := s.calls ++ [Event.xmlCreatePushParserCtxt] }

/-- `DomParser::parse_file`. -/
def parse_file (e : Engine) (filename : String) (s : DomParser) : Ret :=
  let s := release_underlying s
  let s := xmlCreateFileParserCtxt e filename s
  match s.context_ with
  | none => ⟨some (Exc.internal_error ("Could not create parser context\n" ++ e.xml_error)), s⟩
  | some c =>
    let s := if c.directory = none
      then { s with context_ := some { c with directory := e.directory } }
      else s
    parse_context e s

/-- `DomParser::parse_memory_raw`; `contents` is the byte range
`contents[0 .. bytes_count)`. -/
def parse_memory_raw (e : Engine) (contents : List Byte) (s : DomParser) : Ret :=
  let s := release_underlying s
  let s := xmlCreateMemoryParserCtxt e contents s
  match s.context_ with
  | none => ⟨some (Exc.internal_error ("Could not create parser context\n" ++ e.xml_error)), s⟩
  | some _ => parse_context e s

/-! ## The streamed entry point -/

/-- `std::getline(in, line)` on a stream whose unread content is `inp`: `none` when no
character can be extracted (the loop condition is then false); otherwise the characters
before the first `'\n'` (or up to the end of input), and the unread content after that
`'\n'`, which is extracted and dropped. -/
def getline (inp : List Byte) : Option (List Byte × List Byte) :=
  match inp with
  | [] => none
  | _ :: _ => some (inp.takeWhile (· ≠ newline), (inp.dropWhile (· ≠ newline)).drop 1)

/-- One call `xmlParseChunk(context_, chunk, size, terminate)`, the k-th of the parse:
the call is logged, the engine attaches its tree to the context, and the return code is
the engine's k-th answer. -/
def xmlParseChunk (e : Engine) (k : Nat) (chunk : List Byte) (size : Int) (terminate : Int)
    (s : DomParser) : Int × DomParser :=
  (e.parseChunk k,
   { s with context_ := s.context_.map (fun c => { c with myDoc := e.myDoc }),
            calls := s.calls ++ [Event.xmlParseChunk chunk size terminate] })

/-- Local state of the feeding part of `parse_stream`: the unread input, the variable
`firstParseError`, the number of `xmlParseChunk` calls made so far, and the session. -/
structure Feed where
  inp : List Byte
  firstParseError : Int
  count : Nat
  self : DomParser

/-- The body of the loop of `parse_stream` (lines 209-217), for the line `line` that
`getline` has just read, `rest` being the input still unread. The `size_t` value
`line.size()` is converted to the `int size` of `xmlParseChunk`. -/
def feed_line (e : Engine) (f : Feed) (line rest : List Byte) : Feed :=
  let line := line ++ [newline]
  let r := xmlParseChunk e f.count line (narrow_int line.length) 0 f.self
  let parseError := r.1
  let first :=
    if parseError ≠ XML_ERR_OK ∧ f.firstParseError = XML_ERR_OK then parseError
    else f.firstParseError
  { inp := rest, firstParseError := first, count := f.count + 1, self := r.2 }

/-- The loop `while(std::getline(in, line))` of `parse_stream` (lines 205-218), run for at
most `fuel` iterations. -/
def feed_loop (e : Engine) : Nat → Feed → Feed
  | 0, f => f
  | fuel + 1, f =>
    match getline f.inp with
    | none => f
    | some (line, rest) => feed_loop e fuel (feed_line e f line rest)

/-- Lines 203-222 of `parse_stream`: the loop over the lines of `inp`, then the
terminating call `xmlParseChunk(context_, nullptr, 0, 1)`.  Every iteration of the loop
extracts at least one byte, so `inp.length` iterations exhaust the input
(`feed_loop_fuel`). -/
def feed (e : Engine) (inp : List Byte) (s : DomParser) : Feed :=
  let f := feed_loop e inp.length
    { inp := inp, firstParseError := XML_ERR_OK, count := 0, self := s }
  let r := xmlParseChunk e f.count [] 0 1 f.self
  let parseError := r.1
  let first :=
    if parseError ≠ XML_ERR_OK ∧ f.firstParseError = XML_ERR_OK then parseError
    else f.firstParseError
  { inp := f.inp, firstParseError := first, count := f.count + 1, self := r.2 }

/-- The fallback diagnostic of `parse_stream` (line 236); `Glib::ustring::format` of an
`int` is its decimal form. -/
def chunk_error_message (firstParseError : Int) : String :=
  "Error code from xmlParseChunk(): " ++ toString firstParseError

/-- `DomParser::parse_stream`; `inp` is the content of the stream `in`. -/
def parse_stream (e : Engine) (inp : List Byte) (s : DomParser) : Ret :=
  let s := release_underlying s
  let s := xmlCreatePushParserCtxt e s
  match s.context_ with
  | none => ⟨some (Exc.internal_error ("Could not create parser context\n" ++ e.xml_error)), s⟩
  | some _ =>
    let s := initialize_context s
    let f := feed e inp s
    let firstParseError := f.firstParseError
    let s := f.self
    match e.pending with
    | some ex => ⟨some ex, release_underlying s⟩
    | none =>
      let error_str := e.parser_error
      let error_str :=
        if error_str = "" ∧ firstParseError ≠ XML_ERR_OK then chunk_error_message firstParseError
        else error_str
      if error_str ≠ "" then
        ⟨some (Exc.parse_error error_str), release_underlying s⟩
      else
        check_xinclude_and_finish_parsing e s

/-! ## Vocabulary of the statements -/

/-- A call of one of the three entry points, with the engine that answers it. -/
inductive Call where
  | parse_file (e : Engine) (filename : String)
  | parse_memory_raw (e : Engine) (contents : List Byte)
  | parse_stream (e : Engine) (inp : List Byte)

/-- The engine that answers a call. -/
def Call.engine : Call → Engine
  | Call.parse_file e _ => e
  | Call.parse_memory_raw e _ => e
  | Call.parse_stream e _ => e

/-- Runs a call on a session. -/
def Call.run : Call → DomParser → Ret
  | Call.parse_file e filename, s => xmlpp.parse_file e filename s
  | Call.parse_memory_raw e contents, s => xmlpp.parse_memory_raw e contents s
  | Call.parse_stream e inp, s => xmlpp.parse_stream e inp s

/-- The context-creation call with which an entry point starts, once the prior state is
released. -/
def Call.create_event : Call → Event
  | Call.parse_file _ filename => Event.xmlCreateFileParserCtxt filename
  | Call.parse_memory_raw _ contents =>
    Event.xmlCreateMemoryParserCtxt contents (narrow_int contents.length)
  | Call.parse_stream _ _ => Event.xmlCreatePushParserCtxt

/-- The destructions a release of the session `s` performs, in order: the Document if one
is live; then, if a context is live, the tree it still references and the context. -/
def release_events (s : DomParser) : List Event :=
  (match s.doc_ with
    | some d => [Event.deleteDocument d]
    | none => [])
  ++ (match s.context_ with
    | some c =>
      (match c.myDoc with
        | some t => [Event.xmlFreeDoc t]
        | none => []) ++ [Event.xmlFreeParserCtxt c]
    | none => [])

/-- The session after the calls of `cs`, made in order on the session `s`, each taken up
where the one before left the session, whether it returned or threw. -/
def run_all : List Call → DomParser → DomParser
  | [], s => s
  | c :: cs, s => run_all cs (c.run s).self

/-- Every call of `cs`, made in order on the session `s`, throws. -/
def all_fail : List Call → DomParser → Prop
  | [], _ => True
  | c :: cs, s => (c.run s).thrown ≠ none ∧ all_fail cs (c.run s).self

/-- The local state of `parse_stream` on the session `s` when the feeding part is over
(line 222): the prior state is released, the push context created, every line and the
terminating chunk fed. -/
def stream_fed (e : Engine) (inp : List Byte) (s : DomParser) : Feed :=
  feed e inp (xmlCreatePushParserCtxt e (release_underlying s))

/-- The session holds neither a Document nor a ParseContext. -/
def Idle (s : DomParser) : Prop :=
  s.doc_ = none ∧ s.context_ = none

/-- The context of the session references the tree `t`. -/
def ctx_owns (s : DomParser) (t : Tree) : Prop :=
  ∃ c, s.context_ = some c ∧ c.myDoc = some t

/-- The Document of the session wraps the tree `t`. -/
def doc_owns (s : DomParser) (t : Tree) : Prop :=
  s.doc_ = some (Document.mk (some t))

/-- The feed calls in a log: buffer, size and end-of-input flag of every
`xmlParseChunk`, in order. -/
def chunks : List Event → List (List Byte × Int × Int)
  | [] => []
  | Event.xmlParseChunk chunk size terminate :: evs => (chunk, size, terminate) :: chunks evs
  | _ :: evs => chunks evs

/-- The bytes a call hands to the engine when it passes the buffer `buffer` with the size
`size`: the range `buffer[0 .. size)`, which is empty when `size` is not positive. -/
def received (buffer : List Byte) (size : Int) : List Byte :=
  buffer.take size.toNat

/-- The bytes fed to the engine: the bytes handed over by the feed calls of a log, one
call after the other. -/
def payload (evs : List Event) : List Byte :=
  ((chunks evs).map (fun c => received c.1 c.2.1)).flatten

/-- The substitution passes in a log: tree and option value of every
`xmlXIncludeProcessFlags`, in order. -/
def xinclude_passes : List Event → List (Option Tree × Int)
  | [] => []
  | Event.xmlXIncludeProcessFlags doc options :: evs => (doc, options) :: xinclude_passes evs
  | _ :: evs => xinclude_passes evs

/-- The buffers handed to the engine in one piece: the bytes handed over by every
`xmlCreateMemoryParserCtxt`, in order. -/
def buffers : List Event → List (List Byte)
  | [] => []
  | Event.xmlCreateMemoryParserCtxt contents size :: evs => received contents size :: buffers evs
  | _ :: evs => buffers evs

/-- The spec's merge law, `(stored | set) & ~clear`. -/
def merged_options (stored set clear : Int) : Int :=
  Int.land (Int.lor stored set) (Int.lnot clear)

/-- The stream content made of the lines `ls`, each followed by one `'\n'`. -/
def stream_of_lines (ls : List (List Byte)) : List Byte :=
  (ls.map (· ++ [newline])).flatten

/-- The earliest code of a sequence that is not `XML_ERR_OK`, and `XML_ERR_OK` when there
is none. -/
def first_error (codes : List Int) : Int :=
  (codes.find? (· ≠ XML_ERR_OK)).getD XML_ERR_OK

/-! ## Sample engines and sessions -/

/-- A context as the engine creates it: no tree attached yet, no directory. -/
def sample_ctxt : ParserCtxt := { myDoc := none, directory := none }

/-- An engine for which every step succeeds; the tree it builds is number 7. -/
def engine_good : Engine :=
  { ctxt := some sample_ctxt, directory := some "dir/", myDoc := some 7,
    parseDocument := 0, parseChunk := fun _ => 0, pending := none, parser_error := "",
    xml_error := "", set_options := 0, clear_options := 0, n_substitutions := 0 }

/-- An engine whose content parse succeeds and whose substitution pass reports -1. -/
def engine_xinclude_fails : Engine :=
  { engine_good with n_substitutions := -1, xml_error := "XInclude error" }

/-- An engine that records no structured error but returns failure codes: -1 from
`xmlParseDocument`, and 5 and 76 from the second and the fourth `xmlParseChunk`. -/
def engine_code_only : Engine :=
  { engine_good with
    parseDocument := -1,
    parseChunk := fun k => if k = 1 then 5 else if k = 3 then 76 else 0 }

/-- An engine that records no structured error and whose `xmlParseDocument` returns the
code 1, which is neither success nor -1. -/
def engine_advisory : Engine :=
  { engine_good with parseDocument := 1 }

/-- An engine that records a structured error. -/
def engine_malformed : Engine :=
  { engine_good with parseDocument := -1, parser_error := "line 1: parser error" }

/-- The input `<a/>`. -/
def sample_bytes : List Byte := [60, 97, 47, 62]

/-- The input of three lines `<a>`, `x` and `</a>`, each ended by a newline. -/
def sample_stream : List Byte := [60, 97, 62, 10, 120, 10, 60, 47, 97, 62, 10]

/-- The input of two lines `<a>` and `</a>`, the second without a newline. -/
def sample_open_stream : List Byte := [60, 97, 62, 10, 60, 47, 97, 62]

/-- A line of 2^31 - 1 bytes `a`; with its newline it has 2^31 bytes. -/
def long_line : List Byte := List.replicate 2147483647 97

/-- A default-constructed session; its empty Document wraps tree number 1. -/
def session_fresh : DomParser := DomParser.DomParser (Document.mk (some 1)) 0

/-- A session that holds a parsed context (tree 7) and whose stored options have the
process-inclusions bit set, as the finish step finds it. -/
def session_parsed : DomParser :=
  { doc_ := none, context_ := some { myDoc := some 7, directory := none },
    xinclude_options_ := 1024, calls := [] }

/-- A default-constructed session with XInclude processing switched on. -/
def session_xinclude : DomParser := set_xinclude_options true true true session_fresh

/-! ## Lemmas on the bitmask operations -/

/-- Masking with a single bit is non-zero exactly when that bit is set. -/
theorem land_two_pow_ne_zero (x : Int) (k : Nat) :
    Int.land x ((2 ^ k : Nat) : Int) ≠ 0 ↔ x.testBit k = true := by
  constructor
  · intro h
    by_contra hb
    apply h
    have hb2 : x.testBit k = false := by simpa using hb
    cases x with
    | ofNat m =>
      show ((m &&& 2 ^ k : Nat) : Int) = 0
      have hm : m.testBit k = false := hb2
      rw [Nat.and_two_pow, hm]; simp
    | negSucc m =>
      show ((Nat.ldiff (2 ^ k) m : Nat) : Int) = 0
      have hm : (!m.testBit k) = false := hb2
      have hz : Nat.ldiff (2 ^ k) m = 0 := by
        apply Nat.eq_of_testBit_eq
        intro i
        rw [Nat.testBit_ldiff, Nat.testBit_two_pow, Nat.zero_testBit]
        by_cases hki : k = i
        · subst hki; simp at hm; simp [hm]
        · simp [hki]
      rw [hz]; rfl
  · intro hb h
    have hl := Int.testBit_land x ((2 ^ k : Nat) : Int) k
    rw [h, hb] at hl
    have h2 : Int.testBit ((2 ^ k : Nat) : Int) k = true := by
      show Nat.testBit (2 ^ k) k = true
      simp [Nat.testBit_two_pow]
    have h0 : Int.testBit 0 k = false := by
      show Nat.testBit 0 k = false
      simp
    rw [h2, h0] at hl
    simp at hl

/-- The test `options & XML_PARSE_XINCLUDE` of the finish step reads bit 10. -/
theorem land_xinclude_ne_zero (x : Int) :
    Int.land x XML_PARSE_XINCLUDE ≠ 0 ↔ x.testBit 10 = true :=
  land_two_pow_ne_zero x 10

/-- Bit by bit, the merged value is `(stored or set) and not clear`. -/
theorem testBit_merged_options (stored set clear : Int) (i : Nat) :
    (merged_options stored set clear).testBit i
      = ((stored.testBit i || set.testBit i) && !clear.testBit i) := by
  simp [merged_options, Int.testBit_land, Int.testBit_lor, Int.testBit_lnot]

/-! ## Lemmas on logs -/

theorem xinclude_passes_append (l1 l2 : List Event) :
    xinclude_passes (l1 ++ l2) = xinclude_passes l1 ++ xinclude_passes l2 := by
  induction l1 with
  | nil => rfl
  | cons ev evs ih => cases ev <;> simp [xinclude_passes, ih]

theorem chunks_append (l1 l2 : List Event) :
    chunks (l1 ++ l2) = chunks l1 ++ chunks l2 := by
  induction l1 with
  | nil => rfl
  | cons ev evs ih => cases ev <;> simp [chunks, ih]

theorem buffers_append (l1 l2 : List Event) :
    buffers (l1 ++ l2) = buffers l1 ++ buffers l2 := by
  induction l1 with
  | nil => rfl
  | cons ev evs ih => cases ev <;> simp [buffers, ih]

/-! ## Lemmas on release -/

theorem release_underlying_doc (s : DomParser) : (release_underlying s).doc_ = none := by
  unfold release_underlying Parser.release_underlying
  cases hd : s.doc_ <;> cases hc : s.context_ <;> simp [hd, hc]

theorem release_underlying_context (s : DomParser) :
    (release_underlying s).context_ = none := by
  unfold release_underlying Parser.release_underlying
  cases hd : s.doc_ <;> cases hc : s.context_ <;> simp [hc]

theorem release_underlying_options (s : DomParser) :
    (release_underlying s).xinclude_options_ = s.xinclude_options_ := by
  unfold release_underlying Parser.release_underlying
  cases hd : s.doc_ <;> cases hc : s.context_ <;> simp [hc]

/-- The finish step from a session holding the context `c`, spelled out. -/
theorem finish_parsing_eq (c : ParserCtxt) (s : DomParser) :
    finish_parsing c s =
      { doc_ := some (Document.mk c.myDoc), context_ := none,
        xinclude_options_ := s.xinclude_options_,
        calls := s.calls ++ [Event.xmlFreeParserCtxt { c with myDoc := none }] } := by
  simp [finish_parsing, Parser.release_underlying]

/-! ## C1: the options merge law -/

/-- C1. In `check_xinclude_and_finish_parsing`, run on a session that holds a context, the
substitution pass is made exactly when bit 10 (process-inclusions) of
`(xinclude_options_ | set_options) & ~clear_options` is set, and it is then passed that
value; bit by bit the value is (stored or set) and not clear. With stored all-clear, set
all three bits and clear empty, the three bits are set; with stored and clear both all
three bits, the three bits are clear whatever set is. -/
theorem C1_options_merge_law (e : Engine) (s : DomParser) (c : ParserCtxt)
    (hc : s.context_ = some c) :
    xinclude_passes (check_xinclude_and_finish_parsing e s).self.calls
        = xinclude_passes s.calls ++
            (if (merged_options s.xinclude_options_ e.set_options e.clear_options).testBit 10
             then [(c.myDoc, merged_options s.xinclude_options_ e.set_options e.clear_options)]
             else [])
    ∧ (∀ i : Nat,
        (merged_options s.xinclude_options_ e.set_options e.clear_options).testBit i
          = ((s.xinclude_options_.testBit i || e.set_options.testBit i)
              && !e.clear_options.testBit i))
    ∧ (s.xinclude_options_ = 0 →
        e.set_options = Int.lor (Int.lor XML_PARSE_XINCLUDE XML_PARSE_NOXINCNODE)
          XML_PARSE_NOBASEFIX →
        e.clear_options = 0 →
        ∀ i ∈ [10, 15, 18],
          (merged_options s.xinclude_options_ e.set_options e.clear_options).testBit i = true)
    ∧ (s.xinclude_options_ = Int.lor (Int.lor XML_PARSE_XINCLUDE XML_PARSE_NOXINCNODE)
          XML_PARSE_NOBASEFIX →
        e.clear_options = Int.lor (Int.lor XML_PARSE_XINCLUDE XML_PARSE_NOXINCNODE)
          XML_PARSE_NOBASEFIX →
        ∀ i ∈ [10, 15, 18],
          (merged_options s.xinclude_options_ e.set_options e.clear_options).testBit i
            = false) := by
  refine ⟨?_, fun i => testBit_merged_options _ _ _ i, ?_, ?_⟩
  · unfold check_xinclude_and_finish_parsing
    rw [hc]
    simp only [land_xinclude_ne_zero]
    by_cases hb : (merged_options s.xinclude_options_ e.set_options e.clear_options).testBit 10
        = true
    · have hb2 : (Int.land (Int.lor s.xinclude_options_ e.set_options)
          (Int.lnot e.clear_options)).testBit 10 = true := hb
      rw [if_pos hb2, if_pos hb]
      by_cases hn : e.n_substitutions < 0
      · rw [if_pos hn]
        simp [xinclude_passes_append, xinclude_passes, merged_options]
      · rw [if_neg hn]
        simp [finish_parsing_eq, xinclude_passes_append, xinclude_passes, merged_options]
    · have hb2 : ¬ (Int.land (Int.lor s.xinclude_options_ e.set_options)
          (Int.lnot e.clear_options)).testBit 10 = true := hb
      rw [if_neg hb2, if_neg hb]
      simp [finish_parsing_eq, xinclude_passes_append, xinclude_passes]
  · intro hO hS hC i hi
    rw [testBit_merged_options, hO, hS, hC]
    simp only [List.mem_cons, List.mem_singleton, List.not_mem_nil, or_false] at hi
    rcases hi with h | h | h <;> subst h <;> rfl
  · intro hO hC i hi
    rw [testBit_merged_options, hO, hC]
    simp only [List.mem_cons, List.mem_singleton, List.not_mem_nil, or_false] at hi
    have hall : (Int.lor (Int.lor XML_PARSE_XINCLUDE XML_PARSE_NOXINCNODE)
        XML_PARSE_NOBASEFIX).testBit i = true := by
      rcases hi with h | h | h <;> subst h <;> rfl
    rw [hall]
    simp

/-! ## Lemmas on the finish step and on the whole-input path -/

/-- The finish step with the process-inclusions bit clear. -/
theorem finish_bit_clear (e : Engine) (s : DomParser) (c : ParserCtxt)
    (hc : s.context_ = some c)
    (hb : (merged_options s.xinclude_options_ e.set_options e.clear_options).testBit 10
      = false) :
    check_xinclude_and_finish_parsing e s = ⟨none, finish_parsing c s⟩ := by
  unfold check_xinclude_and_finish_parsing
  rw [hc]
  simp only [land_xinclude_ne_zero]
  have hb2 : ¬ (Int.land (Int.lor s.xinclude_options_ e.set_options)
      (Int.lnot e.clear_options)).testBit 10 = true := by
    intro h
    have h2 : (merged_options s.xinclude_options_ e.set_options e.clear_options).testBit 10
        = true := h
    rw [hb] at h2
    exact Bool.noConfusion h2
  rw [if_neg hb2]

/-- The finish step with the process-inclusions bit set and a substitution count that is
not negative. -/
theorem finish_bit_set_ok (e : Engine) (s : DomParser) (c : ParserCtxt)
    (hc : s.context_ = some c)
    (hb : (merged_options s.xinclude_options_ e.set_options e.clear_options).testBit 10
      = true)
    (hn : 0 ≤ e.n_substitutions) :
    check_xinclude_and_finish_parsing e s =
      ⟨none, finish_parsing c { s with calls := s.calls ++
        [Event.xmlXIncludeProcessFlags c.myDoc
          (merged_options s.xinclude_options_ e.set_options e.clear_options)] }⟩ := by
  unfold check_xinclude_and_finish_parsing
  rw [hc]
  simp only [land_xinclude_ne_zero]
  have hb2 : (Int.land (Int.lor s.xinclude_options_ e.set_options)
      (Int.lnot e.clear_options)).testBit 10 = true := hb
  rw [if_pos hb2, if_neg (not_lt.mpr hn)]
  rfl

/-- The finish step with the process-inclusions bit set and a negative substitution
count: `parse_error` is thrown and nothing is released. -/
theorem finish_bit_set_negative (e : Engine) (s : DomParser) (c : ParserCtxt)
    (hc : s.context_ = some c)
    (hb : (merged_options s.xinclude_options_ e.set_options e.clear_options).testBit 10
      = true)
    (hn : e.n_substitutions < 0) :
    check_xinclude_and_finish_parsing e s =
      ⟨some (Exc.parse_error ("Couldn't process XInclude\n" ++ e.xml_error)),
       { s with calls := s.calls ++
        [Event.xmlXIncludeProcessFlags c.myDoc
          (merged_options s.xinclude_options_ e.set_options e.clear_options)] }⟩ := by
  unfold check_xinclude_and_finish_parsing
  rw [hc]
  simp only [land_xinclude_ne_zero]
  have hb2 : (Int.land (Int.lor s.xinclude_options_ e.set_options)
      (Int.lnot e.clear_options)).testBit 10 = true := hb
  rw [if_pos hb2, if_pos hn]
  rfl

/-- What the finish step leaves, from a session that holds the context `c` and no
Document: either it returns with the Document wrapping the tree of `c` and no context, or
it throws with no Document. -/
theorem finish_outcome (e : Engine) (s : DomParser) (c : ParserCtxt)
    (hc : s.context_ = some c) (hd : s.doc_ = none) :
    ((check_xinclude_and_finish_parsing e s).thrown = none
      ∧ (check_xinclude_and_finish_parsing e s).self.doc_ = some (Document.mk c.myDoc)
      ∧ (check_xinclude_and_finish_parsing e s).self.context_ = none
      ∧ ∃ pre, (check_xinclude_and_finish_parsing e s).self.calls
          = pre ++ [Event.xmlFreeParserCtxt { c with myDoc := none }])
    ∨ ((check_xinclude_and_finish_parsing e s).thrown ≠ none
      ∧ (check_xinclude_and_finish_parsing e s).self.doc_ = none) := by
  cases hb : (merged_options s.xinclude_options_ e.set_options e.clear_options).testBit 10
  · left
    rw [finish_bit_clear e s c hc hb, finish_parsing_eq]
    exact ⟨rfl, rfl, rfl, _, rfl⟩
  · by_cases hn : e.n_substitutions < 0
    · right
      rw [finish_bit_set_negative e s c hc hb hn]
      exact ⟨by simp, hd⟩
    · left
      rw [finish_bit_set_ok e s c hc hb (not_lt.mp hn), finish_parsing_eq]
      exact ⟨rfl, rfl, rfl, _, rfl⟩

/-- The body of `parse_context` on a session that holds a context. -/
theorem parse_context_eq (e : Engine) (s : DomParser) (c : ParserCtxt)
    (hc : s.context_ = some c) :
    parse_context e s =
      match e.pending with
      | some ex => ⟨some ex, release_underlying (xmlParseDocument e s).2⟩
      | none =>
        if e.parser_error = "" ∧ e.parseDocument = -1 then
          ⟨some (Exc.parse_error "xmlParseDocument() failed."),
            release_underlying (xmlParseDocument e s).2⟩
        else if e.parser_error ≠ "" then
          ⟨some (Exc.parse_error e.parser_error),
            release_underlying (xmlParseDocument e s).2⟩
        else check_xinclude_and_finish_parsing e (xmlParseDocument e s).2 := by
  simp only [parse_context, initialize_context, hc]
  cases e.pending with
  | some ex => rfl
  | none =>
    simp only
    by_cases h1 : e.parser_error = "" ∧ e.parseDocument = -1
    · have h1b : e.parser_error = "" ∧ (xmlParseDocument e s).1 = -1 := h1
      rw [if_pos h1b, if_pos h1, if_pos (by decide)]
    · have h1b : ¬ (e.parser_error = "" ∧ (xmlParseDocument e s).1 = -1) := h1
      rw [if_neg h1b, if_neg h1]

/-- What `parse_context` leaves, from a session that holds a context and no Document. -/
theorem parse_context_outcome (e : Engine) (s : DomParser) (c : ParserCtxt)
    (hc : s.context_ = some c) (hd : s.doc_ = none) :
    ((parse_context e s).thrown = none
      ∧ (parse_context e s).self.doc_ = some (Document.mk e.myDoc)
      ∧ (parse_context e s).self.context_ = none
      ∧ ∃ pre d, (parse_context e s).self.calls
          = pre ++ [Event.xmlFreeParserCtxt { myDoc := none, directory := d }])
    ∨ ((parse_context e s).thrown ≠ none ∧ (parse_context e s).self.doc_ = none) := by
  rw [parse_context_eq e s c hc]
  cases hp : e.pending with
  | some ex =>
    right
    exact ⟨by simp, release_underlying_doc _⟩
  | none =>
    simp only
    split
    · right
      exact ⟨by simp, release_underlying_doc _⟩
    · split
      · right
        exact ⟨by simp, release_underlying_doc _⟩
      · have hc2 : (xmlParseDocument e s).2.context_ = some { c with myDoc := e.myDoc } := by
          simp [xmlParseDocument, hc]
        rcases finish_outcome e (xmlParseDocument e s).2 _ hc2 hd with h | h
        · left
          obtain ⟨h1, h2, h3, pre, h4⟩ := h
          exact ⟨h1, h2, h3, pre, _, h4⟩
        · right
          exact h

/-! ## Lemmas on the streamed path -/

/-- The loop leaves the Document and the stored options alone, and the context is the one
it started with, up to the tree the engine attaches. -/
theorem feed_loop_session (e : Engine) (fuel : Nat) (f : Feed) :
    (feed_loop e fuel f).self.doc_ = f.self.doc_
    ∧ (feed_loop e fuel f).self.xinclude_options_ = f.self.xinclude_options_
    ∧ (feed_loop e fuel f).self.context_.map (fun c => { c with myDoc := e.myDoc })
        = f.self.context_.map (fun c => { c with myDoc := e.myDoc }) := by
  induction fuel generalizing f with
  | zero => exact ⟨rfl, rfl, rfl⟩
  | succ n ih =>
    unfold feed_loop
    cases hg : getline f.inp with
    | none => exact ⟨rfl, rfl, rfl⟩
    | some p =>
      obtain ⟨line, rest⟩ := p
      simp only
      refine ⟨(ih _).1, (ih _).2.1, ?_⟩
      rw [(ih _).2.2]
      simp only [feed_line, xmlParseChunk, Option.map_map]
      rfl

/-- After feeding, the session holds the context it started with, with the tree of the
engine attached; the Document and the stored options are unchanged. -/
theorem feed_session (e : Engine) (inp : List Byte) (s : DomParser) :
    (feed e inp s).self.doc_ = s.doc_
    ∧ (feed e inp s).self.xinclude_options_ = s.xinclude_options_
    ∧ (feed e inp s).self.context_ = s.context_.map (fun c => { c with myDoc := e.myDoc }) := by
  have h := feed_loop_session e inp.length
    { inp := inp, firstParseError := XML_ERR_OK, count := 0, self := s }
  refine ⟨h.1, h.2.1, ?_⟩
  simp only [feed, xmlParseChunk]
  exact h.2.2

/-- The body of `parse_stream` when the engine creates a context. -/
theorem parse_stream_eq (e : Engine) (inp : List Byte) (s : DomParser) (c : ParserCtxt)
    (hc : e.ctxt = some c) :
    parse_stream e inp s =
      match e.pending with
      | some ex =>
        ⟨some ex, release_underlying
          (feed e inp (xmlCreatePushParserCtxt e (release_underlying s))).self⟩
      | none =>
        if e.parser_error = "" ∧
            (feed e inp (xmlCreatePushParserCtxt e (release_underlying s))).firstParseError
              ≠ XML_ERR_OK then
          ⟨some (Exc.parse_error (chunk_error_message
              (feed e inp (xmlCreatePushParserCtxt e (release_underlying s))).firstParseError)),
            release_underlying
              (feed e inp (xmlCreatePushParserCtxt e (release_underlying s))).self⟩
        else if e.parser_error ≠ "" then
          ⟨some (Exc.parse_error e.parser_error),
            release_underlying
              (feed e inp (xmlCreatePushParserCtxt e (release_underlying s))).self⟩
        else check_xinclude_and_finish_parsing e
          (feed e inp (xmlCreatePushParserCtxt e (release_underlying s))).self := by
  have hx : (xmlCreatePushParserCtxt e (release_underlying s)).context_ = some c := hc
  simp only [parse_stream, initialize_context, hx]
  cases e.pending with
  | some ex => rfl
  | none =>
    simp only
    by_cases h1 : e.parser_error = "" ∧
        (feed e inp (xmlCreatePushParserCtxt e (release_underlying s))).firstParseError
          ≠ XML_ERR_OK
    · have hne : chunk_error_message
          (feed e inp (xmlCreatePushParserCtxt e (release_underlying s))).firstParseError
            ≠ "" := by
        unfold chunk_error_message
        intro h
        have h2 := congrArg String.length h
        rw [String.length_append] at h2
        have h3 : ("Error code from xmlParseChunk(): " : String).length = 33 := by decide
        have h4 : ("" : String).length = 0 := by decide
        omega
      rw [if_pos h1, if_pos h1, if_pos hne]
    · rw [if_neg h1, if_neg h1]

/-! ## Lemmas on the log of a call -/

theorem release_underlying_calls (s : DomParser) :
    (release_underlying s).calls = s.calls ++ release_events s := by
  unfold release_underlying Parser.release_underlying release_events
  cases hd : s.doc_ <;> cases hc : s.context_ <;> simp [hc]

theorem finish_calls (e : Engine) (s : DomParser) :
    ∃ rest, (check_xinclude_and_finish_parsing e s).self.calls = s.calls ++ rest := by
  cases hc : s.context_ with
  | none => exact ⟨[], by simp [check_xinclude_and_finish_parsing, hc]⟩
  | some c =>
    cases hb : (merged_options s.xinclude_options_ e.set_options e.clear_options).testBit 10
    · rw [finish_bit_clear e s c hc hb, finish_parsing_eq]
      exact ⟨_, rfl⟩
    · by_cases hn : e.n_substitutions < 0
      · rw [finish_bit_set_negative e s c hc hb hn]
        exact ⟨_, rfl⟩
      · rw [finish_bit_set_ok e s c hc hb (not_lt.mp hn), finish_parsing_eq]
        exact ⟨[Event.xmlXIncludeProcessFlags c.myDoc
            (merged_options s.xinclude_options_ e.set_options e.clear_options),
          Event.xmlFreeParserCtxt { c with myDoc := none }], by simp⟩

theorem parse_context_calls (e : Engine) (s : DomParser) :
    ∃ rest, (parse_context e s).self.calls = s.calls ++ rest := by
  cases hc : s.context_ with
  | none => exact ⟨[], by simp [parse_context, initialize_context, hc]⟩
  | some c =>
    rw [parse_context_eq e s c hc]
    have hx : (xmlParseDocument e s).2.calls = s.calls ++ [Event.xmlParseDocument] := rfl
    have hr : (release_underlying (xmlParseDocument e s).2).calls
        = s.calls ++ ([Event.xmlParseDocument] ++ release_events (xmlParseDocument e s).2) := by
      rw [release_underlying_calls, hx, List.append_assoc]
    cases e.pending with
    | some ex => exact ⟨_, hr⟩
    | none =>
      simp only
      split
      · exact ⟨_, hr⟩
      · split
        · exact ⟨_, hr⟩
        · obtain ⟨rest, h⟩ := finish_calls e (xmlParseDocument e s).2
          exact ⟨[Event.xmlParseDocument] ++ rest, by rw [h, hx, List.append_assoc]⟩

theorem feed_loop_calls (e : Engine) (fuel : Nat) (f : Feed) :
    ∃ rest, (feed_loop e fuel f).self.calls = f.self.calls ++ rest := by
  induction fuel generalizing f with
  | zero => exact ⟨[], by simp [feed_loop]⟩
  | succ n ih =>
    unfold feed_loop
    cases hg : getline f.inp with
    | none => exact ⟨[], by simp⟩
    | some p =>
      obtain ⟨line, rest⟩ := p
      simp only
      obtain ⟨r, h⟩ := ih (feed_line e f line rest)
      exact ⟨Event.xmlParseChunk (line ++ [newline])
          (narrow_int (line ++ [newline]).length) 0 :: r,
        by rw [h]; simp [feed_line, xmlParseChunk]⟩

theorem feed_calls (e : Engine) (inp : List Byte) (s : DomParser) :
    ∃ rest, (feed e inp s).self.calls = s.calls ++ rest := by
  obtain ⟨r, h⟩ := feed_loop_calls e inp.length
    { inp := inp, firstParseError := XML_ERR_OK, count := 0, self := s }
  refine ⟨r ++ [Event.xmlParseChunk [] 0 1], ?_⟩
  simp only [feed, xmlParseChunk]
  rw [h, List.append_assoc]

/-! ## Lemmas on the three entry points -/

/-- What a parse call leaves, from any session: either it returns, with the Document
wrapping the tree of this call, no context, and the release of a context whose tree
reference is cleared as the last engine call; or it throws, with no Document. -/
theorem run_outcome (call : Call) (s : DomParser) :
    ((call.run s).thrown = none
      ∧ (call.run s).self.doc_ = some (Document.mk call.engine.myDoc)
      ∧ (call.run s).self.context_ = none
      ∧ ∃ pre d, (call.run s).self.calls
          = pre ++ [Event.xmlFreeParserCtxt { myDoc := none, directory := d }])
    ∨ ((call.run s).thrown ≠ none ∧ (call.run s).self.doc_ = none) := by
  cases call with
  | parse_file e filename =>
    simp only [Call.run, Call.engine, parse_file]
    have hd : (xmlCreateFileParserCtxt e filename (release_underlying s)).doc_ = none :=
      release_underlying_doc s
    cases hc : (xmlCreateFileParserCtxt e filename (release_underlying s)).context_ with
    | none => right; exact ⟨by simp, hd⟩
    | some c =>
      simp only
      split
      · exact parse_context_outcome e _ _ rfl hd
      · exact parse_context_outcome e _ c hc hd
  | parse_memory_raw e contents =>
    simp only [Call.run, Call.engine, parse_memory_raw]
    have hd : (xmlCreateMemoryParserCtxt e contents (release_underlying s)).doc_ = none :=
      release_underlying_doc s
    cases hc : (xmlCreateMemoryParserCtxt e contents (release_underlying s)).context_ with
    | none => right; exact ⟨by simp, hd⟩
    | some c => exact parse_context_outcome e _ c hc hd
  | parse_stream e inp =>
    simp only [Call.run, Call.engine]
    have hd : (xmlCreatePushParserCtxt e (release_underlying s)).doc_ = none :=
      release_underlying_doc s
    cases hc : e.ctxt with
    | none =>
      right
      have hx : (xmlCreatePushParserCtxt e (release_underlying s)).context_ = none := hc
      simp only [parse_stream, hx]
      exact ⟨by simp, hd⟩
    | some c =>
      rw [parse_stream_eq e inp s c hc]
      have hf := feed_session e inp (xmlCreatePushParserCtxt e (release_underlying s))
      have hfc : (feed e inp (xmlCreatePushParserCtxt e (release_underlying s))).self.context_
          = some { c with myDoc := e.myDoc } := by
        rw [hf.2.2]
        have hx : (xmlCreatePushParserCtxt e (release_underlying s)).context_ = some c := hc
        rw [hx]
        rfl
      cases e.pending with
      | some ex => right; exact ⟨by simp, release_underlying_doc _⟩
      | none =>
        simp only
        split
        · right; exact ⟨by simp, release_underlying_doc _⟩
        · split
          · right; exact ⟨by simp, release_underlying_doc _⟩
          · rcases finish_outcome e _ _ hfc (hf.1.trans hd) with h | h
            · left
              obtain ⟨h1, h2, h3, pre, h4⟩ := h
              exact ⟨h1, h2, h3, pre, _, h4⟩
            · right; exact h

/-- The log of a parse call starts with the release of the prior state, followed by the
creation of the new context. -/
theorem run_calls (call : Call) (s : DomParser) :
    ∃ rest, (call.run s).self.calls
      = s.calls ++ release_events s ++ call.create_event :: rest := by
  rw [← release_underlying_calls]
  cases call with
  | parse_file e filename =>
    simp only [Call.run, Call.create_event, parse_file]
    cases hc : (xmlCreateFileParserCtxt e filename (release_underlying s)).context_ with
    | none => exact ⟨[], by simp [xmlCreateFileParserCtxt]⟩
    | some c =>
      simp only
      split
      · obtain ⟨rest, h⟩ := parse_context_calls e
          { xmlCreateFileParserCtxt e filename (release_underlying s) with
            context_ := some { c with directory := e.directory } }
        exact ⟨rest, by rw [h]; simp [xmlCreateFileParserCtxt]⟩
      · obtain ⟨rest, h⟩ := parse_context_calls e
          (xmlCreateFileParserCtxt e filename (release_underlying s))
        exact ⟨rest, by rw [h]; simp [xmlCreateFileParserCtxt]⟩
  | parse_memory_raw e contents =>
    simp only [Call.run, Call.create_event, parse_memory_raw]
    cases hc : (xmlCreateMemoryParserCtxt e contents (release_underlying s)).context_ with
    | none => exact ⟨[], by simp [xmlCreateMemoryParserCtxt]⟩
    | some c =>
      obtain ⟨rest, h⟩ := parse_context_calls e
        (xmlCreateMemoryParserCtxt e contents (release_underlying s))
      exact ⟨rest, by rw [h]; simp [xmlCreateMemoryParserCtxt]⟩
  | parse_stream e inp =>
    simp only [Call.run, Call.create_event]
    cases hc : e.ctxt with
    | none =>
      have hx : (xmlCreatePushParserCtxt e (release_underlying s)).context_ = none := hc
      simp only [parse_stream, hx]
      exact ⟨[], by simp [xmlCreatePushParserCtxt]⟩
    | some c =>
      rw [parse_stream_eq e inp s c hc]
      obtain ⟨fr, hfr⟩ := feed_calls e inp (xmlCreatePushParserCtxt e (release_underlying s))
      have hrel : (release_underlying
          (feed e inp (xmlCreatePushParserCtxt e (release_underlying s))).self).calls
            = (release_underlying s).calls ++ Event.xmlCreatePushParserCtxt ::
              (fr ++ release_events
                (feed e inp (xmlCreatePushParserCtxt e (release_underlying s))).self) := by
        rw [release_underlying_calls, hfr]
        simp [xmlCreatePushParserCtxt]
      cases e.pending with
      | some ex => exact ⟨_, hrel⟩
      | none =>
        simp only
        split
        · exact ⟨_, hrel⟩
        · split
          · exact ⟨_, hrel⟩
          · obtain ⟨rest, h⟩ := finish_calls e
              (feed e inp (xmlCreatePushParserCtxt e (release_underlying s))).self
            exact ⟨fr ++ rest, by rw [h, hfr]; simp [xmlCreatePushParserCtxt]⟩

/-! ## Evaluation of the sample calls -/

/-- With no clear-override the merged value is `stored | set`. -/
theorem merged_options_clear_zero (stored set : Int) :
    merged_options stored set 0 = Int.lor stored set := by
  unfold merged_options
  cases h : Int.lor stored set with
  | ofNat m =>
    show ((Nat.ldiff m 0 : Nat) : Int) = Int.ofNat m
    have hz : Nat.ldiff m 0 = m := by
      apply Nat.eq_of_testBit_eq
      intro i
      rw [Nat.testBit_ldiff, Nat.zero_testBit]
      simp
    rw [hz]
    rfl
  | negSucc m =>
    show Int.negSucc (m ||| 0) = Int.negSucc m
    simp

/-- The buffer `<a/>` parsed on a default-constructed session by the engine for which
everything succeeds. -/
theorem sample_parse_memory_raw (s : DomParser)
    (hs : s = session_fresh) :
    parse_memory_raw engine_good sample_bytes s =
      ⟨none,
       { doc_ := some (Document.mk (some 7)),
         context_ := none,
         xinclude_options_ := 0,
         calls := [Event.deleteDocument (Document.mk (some 1)),
                   Event.xmlCreateMemoryParserCtxt sample_bytes 4,
                   Event.xmlParseDocument,
                   Event.xmlFreeParserCtxt { myDoc := none, directory := none }] }⟩ := by
  subst hs
  have h1 : parse_memory_raw engine_good sample_bytes session_fresh =
      parse_context engine_good
        (xmlCreateMemoryParserCtxt engine_good sample_bytes
          (release_underlying session_fresh)) := rfl
  have h2 := parse_context_eq engine_good
    (xmlCreateMemoryParserCtxt engine_good sample_bytes
      (release_underlying session_fresh)) sample_ctxt rfl
  have h3 := finish_bit_clear engine_good
    (xmlParseDocument engine_good
      (xmlCreateMemoryParserCtxt engine_good sample_bytes
        (release_underlying session_fresh))).2
    { myDoc := some 7, directory := none } rfl
    (by rw [testBit_merged_options]; rfl)
  rw [h1, h2]
  refine Eq.trans h3 ?_
  rw [finish_parsing_eq]
  rfl

/-! ## C2: a negative substitution count -/

/-- C2 (the code departs from the claim). The buffer `<a/>` is parsed on a session with
XInclude processing on, by an engine whose content parse succeeds and whose substitution
pass returns -1: `parse_memory_raw` throws the link-inclusion `parse_error`, and the
session the caller finds still holds the ParseContext, which still references tree 7;
the tree has not been destroyed and the session is not Idle. -/
theorem C2_negative_substitution_keeps_context :
    parse_memory_raw engine_xinclude_fails sample_bytes session_xinclude =
      ⟨some (Exc.parse_error "Couldn't process XInclude\nXInclude error"),
       { doc_ := none,
         context_ := some { myDoc := some 7, directory := none },
         xinclude_options_ := 1024,
         calls := [Event.deleteDocument (Document.mk (some 1)),
                   Event.xmlCreateMemoryParserCtxt sample_bytes 4,
                   Event.xmlParseDocument,
                   Event.xmlXIncludeProcessFlags (some 7) 1024] }⟩
    ∧ ¬ Idle (parse_memory_raw engine_xinclude_fails sample_bytes session_xinclude).self
    ∧ ctx_owns (parse_memory_raw engine_xinclude_fails sample_bytes session_xinclude).self 7
    ∧ Event.xmlFreeDoc 7 ∉
        (parse_memory_raw engine_xinclude_fails sample_bytes session_xinclude).self.calls := by
  have h1 : parse_memory_raw engine_xinclude_fails sample_bytes session_xinclude =
      parse_context engine_xinclude_fails
        (xmlCreateMemoryParserCtxt engine_xinclude_fails sample_bytes
          (release_underlying session_xinclude)) := rfl
  have h2 := parse_context_eq engine_xinclude_fails
    (xmlCreateMemoryParserCtxt engine_xinclude_fails sample_bytes
      (release_underlying session_xinclude)) sample_ctxt rfl
  have h3 := finish_bit_set_negative engine_xinclude_fails
    (xmlParseDocument engine_xinclude_fails
      (xmlCreateMemoryParserCtxt engine_xinclude_fails sample_bytes
        (release_underlying session_xinclude))).2
    { myDoc := some 7, directory := none } rfl
    (by rw [testBit_merged_options]; rfl) (by decide)
  have hm : merged_options 1024 0 0 = 1024 := by
    rw [merged_options_clear_zero]
    rfl
  have h4 : parse_memory_raw engine_xinclude_fails sample_bytes session_xinclude =
      ⟨some (Exc.parse_error "Couldn't process XInclude\nXInclude error"),
       { doc_ := none,
         context_ := some { myDoc := some 7, directory := none },
         xinclude_options_ := 1024,
         calls := [Event.deleteDocument (Document.mk (some 1)),
                   Event.xmlCreateMemoryParserCtxt sample_bytes 4,
                   Event.xmlParseDocument,
                   Event.xmlXIncludeProcessFlags (some 7) 1024] }⟩ := by
    rw [h1, h2]
    refine Eq.trans h3 ?_
    show (⟨_, { doc_ := _, context_ := _, xinclude_options_ := _,
                calls := _ ++ [Event.xmlXIncludeProcessFlags _ (merged_options 1024 0 0)] }⟩
          : Ret) = _
    rw [hm]
    rfl
  rw [h4]
  refine ⟨rfl, ?_, ⟨_, rfl, rfl⟩, by decide⟩
  intro hidle
  exact Option.noConfusion hidle.2

/-! ## C1: witness -/

/-- C1 at a concrete input: a session holding a parsed context whose stored options are
`XML_PARSE_XINCLUDE`, no overrides. One substitution pass is made, on tree 7 with the
option value 1024. -/
theorem C1_options_merge_law_witness :
    session_parsed.context_ = some { myDoc := some 7, directory := none }
    ∧ xinclude_passes (check_xinclude_and_finish_parsing engine_good session_parsed).self.calls
        = [(some 7, 1024)] := by
  have h := (C1_options_merge_law engine_good session_parsed
    { myDoc := some 7, directory := none } rfl).1
  have hm : merged_options session_parsed.xinclude_options_ engine_good.set_options
      engine_good.clear_options = 1024 := (merged_options_clear_zero 1024 0).trans rfl
  rw [hm] at h
  exact ⟨rfl, h⟩

/-! ## C9: release -/

/-- C9. `release_underlying`, a total function of the session (it cannot throw), leaves
the session Idle from every state; what it destroys is, in this order, the Document if
one is live, then the tree still referenced by a live context and that context; the
stored options are kept; and a second release changes nothing more. -/
theorem C9_release_idempotent (s : DomParser) :
    Idle (release_underlying s)
    ∧ (release_underlying s).calls = s.calls ++ release_events s
    ∧ (release_underlying s).xinclude_options_ = s.xinclude_options_
    ∧ release_underlying (release_underlying s) = release_underlying s := by
  refine ⟨⟨release_underlying_doc s, release_underlying_context s⟩,
    release_underlying_calls s, release_underlying_options s, ?_⟩
  have hd := release_underlying_doc s
  have hc := release_underlying_context s
  generalize release_underlying s = r at hd hc
  simp [release_underlying, Parser.release_underlying, hd, hc]

/-! ## C3: ownership of the tree -/

/-- C3. After a call of any entry point on any session, returned or thrown, no tree is
referenced by both the context and the Document of the session. When the call returns,
the Document wraps the tree of this call, the session holds no context, and the last
engine call is the release of a context whose tree reference is cleared. And the finish
step, on a session holding the context `c`, with the process-inclusions bit clear or a
substitution count that is not negative, returns with the Document wrapping the tree of
`c` and no context; the engine calls it makes are at most one substitution pass and then
the release of `c` with `myDoc` cleared, so the tree is not destroyed. -/
theorem C3_single_owner (call : Call) (s : DomParser) :
    (∀ t, ¬ (ctx_owns (call.run s).self t ∧ doc_owns (call.run s).self t))
    ∧ ((call.run s).thrown = none →
        (call.run s).self.doc_ = some (Document.mk call.engine.myDoc)
        ∧ (call.run s).self.context_ = none
        ∧ (∃ pre d, (call.run s).self.calls
            = pre ++ [Event.xmlFreeParserCtxt { myDoc := none, directory := d }])
        ∧ ∀ t, call.engine.myDoc = some t →
            doc_owns (call.run s).self t ∧ ¬ ctx_owns (call.run s).self t)
    ∧ (∀ (e : Engine) (s0 : DomParser) (c : ParserCtxt), s0.context_ = some c →
        ((merged_options s0.xinclude_options_ e.set_options e.clear_options).testBit 10
            = false ∨ 0 ≤ e.n_substitutions) →
        (check_xinclude_and_finish_parsing e s0).thrown = none
        ∧ (check_xinclude_and_finish_parsing e s0).self.doc_ = some (Document.mk c.myDoc)
        ∧ (check_xinclude_and_finish_parsing e s0).self.context_ = none
        ∧ (check_xinclude_and_finish_parsing e s0).self.calls
            = s0.calls ++
              (if (merged_options s0.xinclude_options_ e.set_options
                    e.clear_options).testBit 10
               then [Event.xmlXIncludeProcessFlags c.myDoc
                      (merged_options s0.xinclude_options_ e.set_options e.clear_options)]
               else [])
              ++ [Event.xmlFreeParserCtxt { c with myDoc := none }]) := by
  refine ⟨?_, ?_, ?_⟩
  · intro t ⟨⟨c, hc, _⟩, hd⟩
    rcases run_outcome call s with h | h
    · rw [h.2.2.1] at hc
      exact Option.noConfusion hc
    · unfold doc_owns at hd
      rw [h.2] at hd
      exact Option.noConfusion hd
  · intro hret
    rcases run_outcome call s with h | h
    · refine ⟨h.2.1, h.2.2.1, h.2.2.2, ?_⟩
      intro t ht
      constructor
      · unfold doc_owns
        rw [h.2.1, ht]
      · intro ⟨c, hc, _⟩
        rw [h.2.2.1] at hc
        exact Option.noConfusion hc
    · exact absurd hret h.1
  · intro e s0 c hc hcond
    cases hb : (merged_options s0.xinclude_options_ e.set_options e.clear_options).testBit 10
    · rw [finish_bit_clear e s0 c hc hb, finish_parsing_eq]
      simp
    · have hn : 0 ≤ e.n_substitutions := by
        rcases hcond with h | h
        · rw [hb] at h
          exact Bool.noConfusion h
        · exact h
      rw [finish_bit_set_ok e s0 c hc hb hn, finish_parsing_eq]
      simp

/-- C3 at a concrete input: the buffer `<a/>` parsed on a default-constructed session by
the engine for which everything succeeds. The call returns, the Document wraps tree 7 and
the context does not. -/
theorem C3_single_owner_witness :
    (parse_memory_raw engine_good sample_bytes session_fresh).thrown = none
    ∧ doc_owns (parse_memory_raw engine_good sample_bytes session_fresh).self 7
    ∧ ¬ ctx_owns (parse_memory_raw engine_good sample_bytes session_fresh).self 7 :=
  have hret : (parse_memory_raw engine_good sample_bytes session_fresh).thrown = none := by
    rw [sample_parse_memory_raw session_fresh rfl]
  ⟨hret,
   ((C3_single_owner (Call.parse_memory_raw engine_good sample_bytes) session_fresh).2.1
      hret).2.2.2 7 rfl⟩

/-! ## C4: reentrancy -/

/-- C4. A call of any entry point on any session first releases the prior state: the log
continues with the destruction of the prior Document (first, if there was one) and of the
prior context, and then the creation of the new context. If the call throws, whatever the
category, the session has no Document (`doc_` is null, `operator bool` is false). If it
returns, `get_document` is the Document wrapping the tree of this call. -/
theorem C4_reentrancy (call : Call) (s : DomParser) :
    (∃ rest, (call.run s).self.calls
        = s.calls ++ release_events s ++ call.create_event :: rest)
    ∧ (∀ d, s.doc_ = some d →
        ∃ rest, (call.run s).self.calls = s.calls ++ Event.deleteDocument d :: rest)
    ∧ ((call.run s).thrown ≠ none →
        (call.run s).self.doc_ = none
        ∧ operator_bool (call.run s).self = false
        ∧ get_document (call.run s).self = none)
    ∧ ((call.run s).thrown = none →
        get_document (call.run s).self = some (Document.mk call.engine.myDoc)
        ∧ operator_bool (call.run s).self = true) := by
  refine ⟨run_calls call s, ?_, ?_, ?_⟩
  · intro d hd
    obtain ⟨rest, h⟩ := run_calls call s
    rw [h]
    unfold release_events
    rw [hd]
    exact ⟨(match s.context_ with
        | some c =>
          (match c.myDoc with
            | some t => [Event.xmlFreeDoc t]
            | none => []) ++ [Event.xmlFreeParserCtxt c]
        | none => []) ++ call.create_event :: rest, by simp⟩
  · intro hthrown
    rcases run_outcome call s with h | h
    · exact absurd h.1 hthrown
    · exact ⟨h.2, by simp [operator_bool, h.2], h.2⟩
  · intro hret
    rcases run_outcome call s with h | h
    · exact ⟨h.2.1, by simp [operator_bool, h.2.1]⟩
    · exact absurd hret h.1

/-- C4 at a concrete input: the buffer `<a/>` parsed on a default-constructed session,
whose empty Document wraps tree 1. The call returns; the Document of tree 1 is deleted
first and `get_document` is the Document of tree 7. -/
theorem C4_reentrancy_witness :
    session_fresh.doc_ = some (Document.mk (some 1))
    ∧ (parse_memory_raw engine_good sample_bytes session_fresh).thrown = none
    ∧ (∃ rest, (parse_memory_raw engine_good sample_bytes session_fresh).self.calls
        = session_fresh.calls ++ Event.deleteDocument (Document.mk (some 1)) :: rest)
    ∧ get_document (parse_memory_raw engine_good sample_bytes session_fresh).self
        = some (Document.mk (some 7)) :=
  have hret : (parse_memory_raw engine_good sample_bytes session_fresh).thrown = none := by
    rw [sample_parse_memory_raw session_fresh rfl]
  ⟨rfl, hret,
   (C4_reentrancy (Call.parse_memory_raw engine_good sample_bytes) session_fresh).2.1
      (Document.mk (some 1)) rfl,
   ((C4_reentrancy (Call.parse_memory_raw engine_good sample_bytes) session_fresh).2.2.2
      hret).1⟩

/-! ## C5: the existence query -/

/-- C5 as stated fails: a freshly default-constructed session holds a Document, so the
existence query is true and `get_document` is not null, although no parse has occurred. -/
theorem C5_fresh_session_has_document :
    operator_bool (DomParser.DomParser (Document.mk (some 1)) 0) = true
    ∧ get_document (DomParser.DomParser (Document.mk (some 1)) 0)
        = some (Document.mk (some 1)) := by
  decide

/-- After a sequence of calls that is not empty and whose calls all throw, the session has
no Document. -/
theorem all_fail_doc (cs : List Call) (s : DomParser) (hne : cs ≠ [])
    (hfail : all_fail cs s) : (run_all cs s).doc_ = none := by
  induction cs generalizing s with
  | nil => exact absurd rfl hne
  | cons c cs ih =>
    cases cs with
    | nil =>
      rcases run_outcome c s with h | h
      · exact absurd h.1 hfail.1
      · exact h.2
    | cons c2 cs2 => exact ih (c.run s).self (by simp) hfail.2

/-- C5, amended. A freshly default-constructed session holds the empty Document it was
constructed with: the existence query is true. After `release_underlying`, from any
session, and after any sequence of parse calls that is not empty and whose calls all
throw, from any session, the existence query is false and `get_document` is null. -/
theorem C5_existence_query (empty_doc : Document) (xinclude_options : Int) (s : DomParser)
    (cs : List Call) (hne : cs ≠ []) (hfail : all_fail cs s) :
    (operator_bool (DomParser.DomParser empty_doc xinclude_options) = true
      ∧ get_document (DomParser.DomParser empty_doc xinclude_options) = some empty_doc)
    ∧ (operator_bool (release_underlying s) = false
      ∧ get_document (release_underlying s) = none)
    ∧ (operator_bool (run_all cs s) = false
      ∧ get_document (run_all cs s) = none) := by
  refine ⟨⟨rfl, rfl⟩, ⟨?_, release_underlying_doc s⟩, ⟨?_, all_fail_doc cs s hne hfail⟩⟩
  · simp [operator_bool, release_underlying_doc s]
  · simp [operator_bool, all_fail_doc cs s hne hfail]

/-- The buffer `<a/>` parsed by the engine that records a structured error: the call
throws. -/
theorem sample_malformed_throws (s : DomParser) :
    (parse_memory_raw engine_malformed sample_bytes s).thrown
      = some (Exc.parse_error "line 1: parser error") := by
  have h1 : parse_memory_raw engine_malformed sample_bytes s =
      parse_context engine_malformed
        (xmlCreateMemoryParserCtxt engine_malformed sample_bytes
          (release_underlying s)) := rfl
  rw [h1, parse_context_eq engine_malformed _ sample_ctxt rfl]
  rfl

/-- C5, amended, at a concrete input: on a default-constructed session the malformed
buffer is parsed twice; both calls throw, and afterwards the existence query is false. -/
theorem C5_existence_query_witness :
    operator_bool (run_all [Call.parse_memory_raw engine_malformed sample_bytes,
        Call.parse_memory_raw engine_malformed sample_bytes] session_fresh) = false :=
  (C5_existence_query (Document.mk (some 1)) 0 session_fresh
    [Call.parse_memory_raw engine_malformed sample_bytes,
     Call.parse_memory_raw engine_malformed sample_bytes]
    (by simp)
    ⟨by rw [Call.run, sample_malformed_throws]; simp,
     by rw [Call.run, Call.run, sample_malformed_throws]; simp,
     trivial⟩).2.2.1

/-! ## Lemmas on `getline` and on the feeding loop -/

theorem getline_of_ne_nil (inp : List Byte) (h : inp ≠ []) :
    getline inp
      = some (inp.takeWhile (· ≠ newline), (inp.dropWhile (· ≠ newline)).drop 1) := by
  cases inp with
  | nil => exact absurd rfl h
  | cons b bs => rfl

theorem takeWhile_line (l rest : List Byte) (hl : newline ∉ l) :
    (l ++ newline :: rest).takeWhile (· ≠ newline) = l := by
  induction l with
  | nil => exact List.takeWhile_cons_of_neg (by simp)
  | cons b bs ih =>
    have hb : b ≠ newline := fun h => hl (by simp [h])
    have hbs : newline ∉ bs := fun h => hl (by simp [h])
    rw [List.cons_append, List.takeWhile_cons_of_pos (by simpa using hb), ih hbs]

theorem dropWhile_line (l rest : List Byte) (hl : newline ∉ l) :
    (l ++ newline :: rest).dropWhile (· ≠ newline) = newline :: rest := by
  induction l with
  | nil => exact List.dropWhile_cons_of_neg (by simp)
  | cons b bs ih =>
    have hb : b ≠ newline := fun h => hl (by simp [h])
    have hbs : newline ∉ bs := fun h => hl (by simp [h])
    rw [List.cons_append, List.dropWhile_cons_of_pos (by simpa using hb), ih hbs]

/-- A line ended by a newline is read up to the newline, which is dropped. -/
theorem getline_line (l rest : List Byte) (hl : newline ∉ l) :
    getline (l ++ newline :: rest) = some (l, rest) := by
  rw [getline_of_ne_nil _ (by simp), takeWhile_line l rest hl, dropWhile_line l rest hl]
  rfl

/-- A last line that is not empty and not ended by a newline is read whole. -/
theorem getline_last (l : List Byte) (hl : newline ∉ l) (hne : l ≠ []) :
    getline l = some (l, []) := by
  have h1 : l.takeWhile (· ≠ newline) = l := by
    rw [List.takeWhile_eq_self_iff]
    intro b hb
    have : b ≠ newline := fun h => hl (h ▸ hb)
    simpa using this
  have h2 : l.dropWhile (· ≠ newline) = [] := by
    rw [List.dropWhile_eq_nil_iff]
    intro b hb
    have : b ≠ newline := fun h => hl (h ▸ hb)
    simpa using this
  rw [getline_of_ne_nil l hne, h1, h2]
  rfl

/-- What `getline` returns, in terms of the input: either the input is the line, a
newline and the rest, or the input is the line, which has no newline, and nothing
is left. -/
theorem getline_some (inp line rest : List Byte) (h : getline inp = some (line, rest)) :
    inp = line ++ newline :: rest ∨ (inp = line ∧ rest = [] ∧ newline ∉ line ∧ line ≠ []) := by
  have hne : inp ≠ [] := by
    intro h0
    rw [h0] at h
    exact Option.noConfusion h
  rw [getline_of_ne_nil inp hne] at h
  have hline : inp.takeWhile (· ≠ newline) = line := by
    have := congrArg Prod.fst (Option.some.inj h)
    exact this
  have hrest : (inp.dropWhile (· ≠ newline)).drop 1 = rest := by
    have := congrArg Prod.snd (Option.some.inj h)
    exact this
  have hsplit : inp.takeWhile (· ≠ newline) ++ inp.dropWhile (· ≠ newline) = inp :=
    List.takeWhile_append_dropWhile _ inp
  cases hd : inp.dropWhile (· ≠ newline) with
  | nil =>
    right
    rw [hd] at hsplit hrest
    rw [hline, List.append_nil] at hsplit
    refine ⟨hsplit.symm, hrest.symm, ?_, hsplit ▸ hne⟩
    intro hmem
    rw [← hline] at hmem
    have := List.mem_takeWhile_imp hmem
    simp at this
  | cons b r =>
    left
    have hb : b = newline := by
      have hh := List.head_dropWhile_not (· ≠ newline) inp (by rw [hd]; simp)
      simp only [hd, List.head_cons] at hh
      simpa using hh
    rw [hd] at hsplit hrest
    rw [hline, hb] at hsplit
    simp only [List.drop_succ_cons, List.drop_zero] at hrest
    rw [← hrest]
    exact hsplit.symm

/-- Once the input is exhausted the loop stops. -/
theorem feed_loop_nil (e : Engine) (fuel : Nat) (f : Feed) (h : f.inp = []) :
    feed_loop e fuel f = f := by
  cases fuel with
  | zero => rfl
  | succ n =>
    unfold feed_loop
    rw [h]
    rfl

/-- One iteration of the loop. -/
theorem feed_loop_succ (e : Engine) (fuel : Nat) (f : Feed) (line rest : List Byte)
    (h : getline f.inp = some (line, rest)) :
    feed_loop e (fuel + 1) f = feed_loop e fuel (feed_line e f line rest) := by
  rw [feed_loop, h]

/-- Every iteration extracts at least one byte: the unread input gets shorter. -/
theorem getline_length (inp line rest : List Byte) (h : getline inp = some (line, rest)) :
    rest.length < inp.length := by
  rcases getline_some inp line rest h with h1 | ⟨h1, h2, _, h4⟩
  · rw [h1]
    simp
    omega
  · rw [h2]
    exact List.length_pos.mpr (h1 ▸ h4)

/-- The bound on the iterations is never what stops the loop: given at least
`inp.length` iterations, the loop ends with the input exhausted, and more iterations
change nothing. -/
theorem feed_loop_fuel (e : Engine) (fuel : Nat) (f : Feed) (h : f.inp.length ≤ fuel) :
    (feed_loop e fuel f).inp = []
    ∧ ∀ more, feed_loop e (fuel + more) f = feed_loop e fuel f := by
  induction fuel generalizing f with
  | zero =>
    have h0 : f.inp = [] := List.length_eq_zero.mp (Nat.le_zero.mp h)
    exact ⟨h0, fun more => by rw [feed_loop_nil e _ f h0, feed_loop_nil e _ f h0]⟩
  | succ n ih =>
    cases hg : getline f.inp with
    | none =>
      have h0 : f.inp = [] := by
        cases hi : f.inp with
        | nil => rfl
        | cons b bs => rw [hi] at hg; exact Option.noConfusion hg
      exact ⟨by rw [feed_loop_nil e _ f h0]; exact h0,
        fun more => by rw [feed_loop_nil e _ f h0, feed_loop_nil e _ f h0]⟩
    | some p =>
      obtain ⟨line, rest⟩ := p
      have hlen := getline_length f.inp line rest hg
      have hrest : (feed_line e f line rest).inp.length ≤ n := by
        show rest.length ≤ n
        omega
      rw [feed_loop_succ e n f line rest hg]
      refine ⟨(ih _ hrest).1, fun more => ?_⟩
      rw [show n + 1 + more = (n + more) + 1 by omega, feed_loop_succ e _ f line rest hg]
      exact (ih _ hrest).2 more


/-! ## The feed calls of the loop -/

/-- The feed call that carries a line: the line and one newline, the length of both
converted to `int`, and the end-of-input flag 0. -/
theorem chunks_feed_line (e : Engine) (f : Feed) (line rest : List Byte) :
    chunks (feed_line e f line rest).self.calls
      = chunks f.self.calls ++ [(line ++ [newline], narrow_int (line.length + 1), 0)] := by
  simp [feed_line, xmlParseChunk, chunks_append, chunks]

/-- The feed calls of the loop on the input made of the lines `ls`, each ended by a
newline, and of a last line `last` without one (no last line when `last` is empty). -/
theorem feed_loop_chunks (e : Engine) (ls : List (List Byte)) (last : List Byte)
    (hls : ∀ l ∈ ls, newline ∉ l) (hlast : newline ∉ last) (fuel : Nat) (f : Feed)
    (hinp : f.inp = stream_of_lines ls ++ last) (hfuel : f.inp.length ≤ fuel) :
    chunks (feed_loop e fuel f).self.calls
        = chunks f.self.calls ++
          (ls ++ (if last = [] then [] else [last])).map
            (fun l => (l ++ [newline], narrow_int (l.length + 1), 0))
    ∧ (feed_loop e fuel f).count
        = f.count + (ls ++ (if last = [] then [] else [last])).length := by
  induction ls generalizing fuel f with
  | nil =>
    have hinp2 : f.inp = last := by simpa [stream_of_lines] using hinp
    by_cases h0 : last = []
    · rw [feed_loop_nil e fuel f (hinp2.trans h0)]
      simp [h0]
    · cases fuel with
      | zero =>
        have : f.inp = [] := List.length_eq_zero.mp (Nat.le_zero.mp hfuel)
        exact absurd (hinp2.symm.trans this) h0
      | succ n =>
        have hg : getline f.inp = some (last, []) := by
          rw [hinp2]
          exact getline_last last hlast h0
        rw [feed_loop_succ e n f last [] hg, feed_loop_nil e n _ rfl, chunks_feed_line]
        simp [h0, feed_line]
  | cons l ls ih =>
    have hl : newline ∉ l := hls l (by simp)
    have hls2 : ∀ x ∈ ls, newline ∉ x := fun x hx => hls x (by simp [hx])
    have hinp2 : f.inp = l ++ newline :: (stream_of_lines ls ++ last) := by
      rw [hinp]
      simp [stream_of_lines]
    have hg : getline f.inp = some (l, stream_of_lines ls ++ last) := by
      rw [hinp2]
      exact getline_line l _ hl
    cases fuel with
    | zero =>
      have h0 : f.inp = [] := List.length_eq_zero.mp (Nat.le_zero.mp hfuel)
      rw [h0] at hinp2
      simp at hinp2
    | succ n =>
      have hlen := getline_length f.inp l _ hg
      have hrest : (feed_line e f l (stream_of_lines ls ++ last)).inp.length ≤ n := by
        show (stream_of_lines ls ++ last).length ≤ n
        omega
      rw [feed_loop_succ e n f l _ hg]
      obtain ⟨h1, h2⟩ := ih hls2 n (feed_line e f l (stream_of_lines ls ++ last)) rfl hrest
      rw [h1, h2, chunks_feed_line]
      constructor
      · simp
      · simp [feed_line]
        omega

/-! ## The remembered error code -/

theorem first_error_append (codes : List Int) (c : Int) :
    first_error (codes ++ [c])
      = if c ≠ XML_ERR_OK ∧ first_error codes = XML_ERR_OK then c else first_error codes := by
  unfold first_error
  rw [List.find?_append]
  cases hf : codes.find? (· ≠ XML_ERR_OK) with
  | some x =>
    have hx : x ≠ XML_ERR_OK := by
      have := List.find?_some hf
      simpa using this
    simp [hx]
  | none =>
    by_cases hc : c = XML_ERR_OK
    · simp [hc]
    · simp [List.find?, hc]

/-- The loop body keeps `firstParseError` equal to the earliest code that is not
`XML_ERR_OK` among the codes returned so far. -/
theorem feed_line_first (e : Engine) (f : Feed) (line rest : List Byte)
    (h : f.firstParseError = first_error ((List.range f.count).map e.parseChunk)) :
    (feed_line e f line rest).firstParseError
      = first_error ((List.range (feed_line e f line rest).count).map e.parseChunk) := by
  show (if e.parseChunk f.count ≠ XML_ERR_OK ∧ f.firstParseError = XML_ERR_OK
      then e.parseChunk f.count else f.firstParseError)
    = first_error ((List.range (f.count + 1)).map e.parseChunk)
  rw [List.range_succ, List.map_append, List.map_singleton, first_error_append, ← h]

theorem feed_loop_first (e : Engine) (fuel : Nat) (f : Feed)
    (h : f.firstParseError = first_error ((List.range f.count).map e.parseChunk)) :
    (feed_loop e fuel f).firstParseError
      = first_error ((List.range (feed_loop e fuel f).count).map e.parseChunk) := by
  induction fuel generalizing f with
  | zero => exact h
  | succ n ih =>
    cases hg : getline f.inp with
    | none =>
      rw [feed_loop, hg]
      exact h
    | some p =>
      obtain ⟨line, rest⟩ := p
      rw [feed_loop_succ e n f line rest hg]
      exact ih _ (feed_line_first e f line rest h)

/-- When feeding is over, `firstParseError` is the earliest code that is not
`XML_ERR_OK` among the codes of all the feed calls, the terminating one included. -/
theorem feed_first (e : Engine) (inp : List Byte) (s : DomParser) :
    (feed e inp s).firstParseError
      = first_error ((List.range (feed e inp s).count).map e.parseChunk) := by
  have h := feed_loop_first e inp.length
    { inp := inp, firstParseError := XML_ERR_OK, count := 0, self := s } rfl
  show (if e.parseChunk (feed_loop e inp.length _).count ≠ XML_ERR_OK
        ∧ (feed_loop e inp.length _).firstParseError = XML_ERR_OK
      then e.parseChunk (feed_loop e inp.length _).count
      else (feed_loop e inp.length _).firstParseError)
    = first_error ((List.range ((feed_loop e inp.length _).count + 1)).map e.parseChunk)
  rw [List.range_succ, List.map_append, List.map_singleton, first_error_append, ← h]

theorem feed_loop_count (e : Engine) (fuel : Nat) (f : Feed) :
    (chunks (feed_loop e fuel f).self.calls).length + f.count
      = (chunks f.self.calls).length + (feed_loop e fuel f).count := by
  induction fuel generalizing f with
  | zero => rfl
  | succ n ih =>
    cases hg : getline f.inp with
    | none =>
      rw [feed_loop, hg]
    | some p =>
      obtain ⟨line, rest⟩ := p
      rw [feed_loop_succ e n f line rest hg]
      have h := ih (feed_line e f line rest)
      rw [chunks_feed_line] at h
      have hc : (feed_line e f line rest).count = f.count + 1 := rfl
      rw [hc] at h
      simp at h
      omega

/-- The feed calls of the feeding part: those of the loop, then the terminating call with
an empty payload and the end-of-input flag 1. -/
theorem feed_chunks (e : Engine) (inp : List Byte) (s : DomParser) :
    chunks (feed e inp s).self.calls
      = chunks (feed_loop e inp.length
          { inp := inp, firstParseError := XML_ERR_OK, count := 0, self := s }).self.calls
        ++ [([], 0, 1)] := by
  simp [feed, xmlParseChunk, chunks_append, chunks]

/-- Every code counted by `count` is the code of one feed call of the log. -/
theorem feed_count (e : Engine) (inp : List Byte) (s : DomParser) :
    (chunks (feed e inp s).self.calls).length
      = (chunks s.calls).length + (feed e inp s).count := by
  have h := feed_loop_count e inp.length
    { inp := inp, firstParseError := XML_ERR_OK, count := 0, self := s }
  rw [feed_chunks]
  have hc : (feed e inp s).count = (feed_loop e inp.length
      { inp := inp, firstParseError := XML_ERR_OK, count := 0, self := s }).count + 1 := rfl
  rw [hc]
  simp at h ⊢
  omega

/-! ## What the other steps add to the log -/

theorem chunks_release (s : DomParser) :
    chunks (release_underlying s).calls = chunks s.calls := by
  rw [release_underlying_calls, chunks_append]
  unfold release_events
  cases s.doc_ <;> cases hc : s.context_ <;> simp [chunks]
  all_goals (rename_i c; cases c.myDoc <;> simp [chunks])

theorem buffers_release (s : DomParser) :
    buffers (release_underlying s).calls = buffers s.calls := by
  rw [release_underlying_calls, buffers_append]
  unfold release_events
  cases s.doc_ <;> cases hc : s.context_ <;> simp [buffers]
  all_goals (rename_i c; cases c.myDoc <;> simp [buffers])

theorem chunks_finish (e : Engine) (s : DomParser) :
    chunks (check_xinclude_and_finish_parsing e s).self.calls = chunks s.calls := by
  cases hc : s.context_ with
  | none => simp [check_xinclude_and_finish_parsing, hc]
  | some c =>
    cases hb : (merged_options s.xinclude_options_ e.set_options e.clear_options).testBit 10
    · rw [finish_bit_clear e s c hc hb, finish_parsing_eq]
      simp [chunks_append, chunks]
    · by_cases hn : e.n_substitutions < 0
      · rw [finish_bit_set_negative e s c hc hb hn]
        simp [chunks_append, chunks]
      · rw [finish_bit_set_ok e s c hc hb (not_lt.mp hn), finish_parsing_eq]
        simp [chunks_append, chunks]

theorem buffers_finish (e : Engine) (s : DomParser) :
    buffers (check_xinclude_and_finish_parsing e s).self.calls = buffers s.calls := by
  cases hc : s.context_ with
  | none => simp [check_xinclude_and_finish_parsing, hc]
  | some c =>
    cases hb : (merged_options s.xinclude_options_ e.set_options e.clear_options).testBit 10
    · rw [finish_bit_clear e s c hc hb, finish_parsing_eq]
      simp [buffers_append, buffers]
    · by_cases hn : e.n_substitutions < 0
      · rw [finish_bit_set_negative e s c hc hb hn]
        simp [buffers_append, buffers]
      · rw [finish_bit_set_ok e s c hc hb (not_lt.mp hn), finish_parsing_eq]
        simp [buffers_append, buffers]

theorem buffers_parse_context (e : Engine) (s : DomParser) :
    buffers (parse_context e s).self.calls = buffers s.calls := by
  cases hc : s.context_ with
  | none => simp [parse_context, initialize_context, hc]
  | some c =>
    rw [parse_context_eq e s c hc]
    have hx : buffers (xmlParseDocument e s).2.calls = buffers s.calls := by
      simp [xmlParseDocument, buffers_append, buffers]
    have hr : buffers (release_underlying (xmlParseDocument e s).2).calls
        = buffers s.calls := by
      rw [buffers_release, hx]
    cases e.pending with
    | some ex => exact hr
    | none =>
      simp only
      split
      · exact hr
      · split
        · exact hr
        · rw [buffers_finish, hx]

/-- The feed calls of `parse_stream` are those of its feeding part. -/
theorem parse_stream_chunks (e : Engine) (inp : List Byte) (s : DomParser) (c : ParserCtxt)
    (hc : e.ctxt = some c) :
    chunks (parse_stream e inp s).self.calls = chunks (stream_fed e inp s).self.calls := by
  rw [parse_stream_eq e inp s c hc]
  unfold stream_fed
  cases e.pending with
  | some ex => exact chunks_release _
  | none =>
    simp only
    split
    · exact chunks_release _
    · split
      · exact chunks_release _
      · exact chunks_finish e _

/-- The feeding part starts from a log with the feed calls of the prior log. -/
theorem chunks_push (e : Engine) (s : DomParser) :
    chunks (xmlCreatePushParserCtxt e (release_underlying s)).calls = chunks s.calls := by
  simp [xmlCreatePushParserCtxt, chunks_append, chunks, chunks_release]

/-- The one buffer `parse_memory_raw` hands to the engine: the bytes of its argument that
the converted size covers. -/
theorem parse_memory_raw_buffers (e : Engine) (contents : List Byte) (s : DomParser) :
    buffers (parse_memory_raw e contents s).self.calls
      = buffers s.calls ++ [received contents (narrow_int contents.length)] := by
  have hx : buffers (xmlCreateMemoryParserCtxt e contents (release_underlying s)).calls
      = buffers s.calls ++ [received contents (narrow_int contents.length)] := by
    simp [xmlCreateMemoryParserCtxt, buffers_append, buffers, buffers_release]
  simp only [parse_memory_raw]
  cases hc : (xmlCreateMemoryParserCtxt e contents (release_underlying s)).context_ with
  | none => exact hx
  | some c =>
    simp only
    rw [buffers_parse_context, hx]

/-! ## C6: an empty diagnostic -/

theorem first_error_eq_ok_iff (codes : List Int) :
    first_error codes = XML_ERR_OK ↔ ∀ c ∈ codes, c = XML_ERR_OK := by
  induction codes with
  | nil => simp [first_error]
  | cons c cs ih =>
    by_cases hc : c = XML_ERR_OK
    · have h : first_error (c :: cs) = first_error cs := by
        simp [first_error, List.find?, hc]
      rw [h, ih]
      simp [hc]
    · have h : first_error (c :: cs) = c := by
        simp [first_error, List.find?, hc]
      rw [h]
      simp [hc]

/-- C6 as stated fails, on both paths. The engine records no structured error and no
exception is pending. Its `xmlParseDocument` returns -1: `parse_memory_raw` of the buffer
`<a/>` throws the content `parse_error` "xmlParseDocument() failed." and the session is
left without Document, instead of going on to the finish step. Its second
`xmlParseChunk` returns 5: `parse_stream` of three lines throws the content
`parse_error` "Error code from xmlParseChunk(): 5". -/
theorem C6_empty_diagnostic_can_fail :
    engine_code_only.parser_error = "" ∧ engine_code_only.pending = none
    ∧ parse_memory_raw engine_code_only sample_bytes session_fresh =
        ⟨some (Exc.parse_error "xmlParseDocument() failed."),
         { doc_ := none, context_ := none, xinclude_options_ := 0,
           calls := [Event.deleteDocument (Document.mk (some 1)),
                     Event.xmlCreateMemoryParserCtxt sample_bytes 4,
                     Event.xmlParseDocument,
                     Event.xmlFreeDoc 7,
                     Event.xmlFreeParserCtxt { myDoc := some 7, directory := none }] }⟩
    ∧ (parse_stream engine_code_only sample_stream session_fresh).thrown
        = some (Exc.parse_error "Error code from xmlParseChunk(): 5")
    ∧ (parse_stream engine_code_only sample_stream session_fresh).self.doc_ = none := by
  refine ⟨rfl, rfl, ?_, ?_, ?_⟩
  · decide
  · decide
  · decide

/-- The number of feed calls counted when the feeding part is over: one for each line
and one for the terminating call. -/
theorem stream_fed_count (e : Engine) (s : DomParser) (ls : List (List Byte))
    (last : List Byte) (hls : ∀ l ∈ ls, newline ∉ l) (hlast : newline ∉ last) :
    (stream_fed e (stream_of_lines ls ++ last) s).count
      = (ls ++ (if last = [] then [] else [last])).length + 1 := by
  have h := (feed_loop_chunks e ls last hls hlast (stream_of_lines ls ++ last).length
    { inp := stream_of_lines ls ++ last, firstParseError := XML_ERR_OK, count := 0,
      self := xmlCreatePushParserCtxt e (release_underlying s) } rfl (le_refl _)).2
  show (feed_loop e (stream_of_lines ls ++ last).length _).count + 1 = _
  rw [h]
  simp

/-- C6, amended. The aggregated diagnostic is empty and no exception is pending. On the
whole-input path, `parse_context` goes on to the finish step for every return code of
`xmlParseDocument` other than -1, and with the code -1 it throws the content
`parse_error` "xmlParseDocument() failed." after releasing the session. On the streamed
path the input is made of the lines `ls`, each ended by a newline, and of a last line
`last` without one (every byte string is, `lines_exist`), n lines in all, so that n + 1
feed calls are made and counted, the k-th of them returning `e.parseChunk k`.
`parse_stream` goes on to the finish step when every one of these calls returned
`XML_ERR_OK`; when one of them returned another code it releases the session and throws
the content `parse_error` whose message is "Error code from xmlParseChunk(): " followed
by the decimal form of the first code of the n + 1 that is not `XML_ERR_OK`. -/
theorem C6_empty_diagnostic (e : Engine) (s1 s2 : DomParser) (c1 c2 : ParserCtxt)
    (inp : List Byte) (ls : List (List Byte)) (last : List Byte)
    (h1 : s1.context_ = some c1) (h2 : e.ctxt = some c2)
    (herr : e.parser_error = "") (hpend : e.pending = none)
    (hinp : inp = stream_of_lines ls ++ last)
    (hls : ∀ l ∈ ls, newline ∉ l) (hlast : newline ∉ last) :
    (e.parseDocument ≠ -1 →
      parse_context e s1 = check_xinclude_and_finish_parsing e (xmlParseDocument e s1).2)
    ∧ (e.parseDocument = -1 →
      parse_context e s1 =
        ⟨some (Exc.parse_error "xmlParseDocument() failed."),
         release_underlying (xmlParseDocument e s1).2⟩)
    ∧ (stream_fed e inp s2).count = (ls ++ (if last = [] then [] else [last])).length + 1
    ∧ ((∀ k, k ≤ (ls ++ (if last = [] then [] else [last])).length →
          e.parseChunk k = XML_ERR_OK) →
      parse_stream e inp s2
        = check_xinclude_and_finish_parsing e (stream_fed e inp s2).self)
    ∧ ((∃ k, k ≤ (ls ++ (if last = [] then [] else [last])).length
          ∧ e.parseChunk k ≠ XML_ERR_OK) →
      parse_stream e inp s2 =
        ⟨some (Exc.parse_error ("Error code from xmlParseChunk(): " ++ toString
          (first_error ((List.range
            ((ls ++ (if last = [] then [] else [last])).length + 1)).map e.parseChunk)))),
         release_underlying (stream_fed e inp s2).self⟩) := by
  have hcount : (stream_fed e inp s2).count
      = (ls ++ (if last = [] then [] else [last])).length + 1 := by
    rw [hinp]
    exact stream_fed_count e s2 ls last hls hlast
  have hfirst : (stream_fed e inp s2).firstParseError
      = first_error ((List.range
          ((ls ++ (if last = [] then [] else [last])).length + 1)).map e.parseChunk) := by
    rw [← hcount]
    exact feed_first e inp (xmlCreatePushParserCtxt e (release_underlying s2))
  refine ⟨?_, ?_, hcount, ?_, ?_⟩
  · intro hcode
    rw [parse_context_eq e s1 c1 h1, hpend]
    simp only
    rw [if_neg (fun h => hcode h.2), if_neg (fun h => h herr)]
  · intro hcode
    rw [parse_context_eq e s1 c1 h1, hpend]
    simp only
    rw [if_pos ⟨herr, hcode⟩]
  · intro hall
    have hok : (stream_fed e inp s2).firstParseError = XML_ERR_OK := by
      rw [hfirst, first_error_eq_ok_iff]
      intro c hc
      obtain ⟨k, hk, rfl⟩ := List.mem_map.mp hc
      exact hall k (Nat.lt_succ_iff.mp (List.mem_range.mp hk))
    rw [parse_stream_eq e inp s2 c2 h2, hpend]
    simp only
    rw [if_neg (fun h => h.2 hok), if_neg (fun h => h herr)]
    rfl
  · intro ⟨k, hk, hcode⟩
    have hbad : (stream_fed e inp s2).firstParseError ≠ XML_ERR_OK := by
      rw [hfirst]
      intro h
      rw [first_error_eq_ok_iff] at h
      exact hcode (h _ (List.mem_map.mpr
        ⟨k, List.mem_range.mpr (Nat.lt_succ_iff.mpr hk), rfl⟩))
    rw [parse_stream_eq e inp s2 c2 h2, hpend]
    simp only
    rw [if_pos ⟨herr, hbad⟩, ← hfirst]
    rfl

/-- C6, amended, at concrete inputs. With an empty diagnostic, no pending exception and
the code 1 from `xmlParseDocument`, `parse_context` goes on to the finish step. With an
empty diagnostic, no pending exception and the codes 0, 5, 0 and 76 from the four feed
calls of a stream of three lines, `parse_stream` throws the `parse_error` that names 5,
the first of the two codes that are not `XML_ERR_OK`. -/
theorem C6_empty_diagnostic_witness :
    (engine_advisory.parser_error = "" ∧ engine_advisory.pending = none
      ∧ engine_advisory.parseDocument = 1
      ∧ parse_context engine_advisory session_parsed
          = check_xinclude_and_finish_parsing engine_advisory
              (xmlParseDocument engine_advisory session_parsed).2)
    ∧ (engine_code_only.parser_error = "" ∧ engine_code_only.pending = none
      ∧ (List.range 4).map engine_code_only.parseChunk = [0, 5, 0, 76]
      ∧ (parse_stream engine_code_only sample_stream session_xinclude).thrown
          = some (Exc.parse_error "Error code from xmlParseChunk(): 5")) :=
  ⟨⟨rfl, rfl, rfl,
    (C6_empty_diagnostic engine_advisory session_parsed session_fresh
      { myDoc := some 7, directory := none } sample_ctxt sample_stream
      [[60, 97, 62], [120], [60, 47, 97, 62]] [] rfl rfl rfl rfl rfl
      (by decide) (by decide)).1 (by decide)⟩,
   ⟨rfl, rfl, by decide,
    (congrArg Ret.thrown
      ((C6_empty_diagnostic engine_code_only session_parsed session_xinclude
        { myDoc := some 7, directory := none } sample_ctxt sample_stream
        [[60, 97, 62], [120], [60, 47, 97, 62]] [] rfl rfl rfl rfl rfl
        (by decide) (by decide)).2.2.2.2 ⟨1, by decide, by decide⟩)).trans (by decide)⟩⟩

/-! ## C7: the feed protocol -/

theorem narrow_int_of_lt (n : Nat) (h : n < 2147483648) : narrow_int n = (n : Int) := by
  unfold narrow_int
  omega

/-- The feed calls of the feeding part on the input made of the lines `ls`, each ended by
a newline, and of a last line `last` without one: one call for each line, with the line
followed by one newline and its length converted to `int`, then the terminating call. -/
theorem feed_chunks_lines (e : Engine) (s : DomParser) (ls : List (List Byte))
    (last : List Byte) (hls : ∀ l ∈ ls, newline ∉ l) (hlast : newline ∉ last) :
    chunks (feed e (stream_of_lines ls ++ last) s).self.calls
      = chunks s.calls
        ++ (ls ++ (if last = [] then [] else [last])).map
            (fun l => (l ++ [newline], narrow_int (l.length + 1), 0))
        ++ [([], 0, 1)] := by
  rw [feed_chunks]
  rw [(feed_loop_chunks e ls last hls hlast (stream_of_lines ls ++ last).length
    { inp := stream_of_lines ls ++ last, firstParseError := XML_ERR_OK, count := 0,
      self := s } rfl (le_refl _)).1]

/-- The same for `parse_stream`, when the engine creates the push context. -/
theorem parse_stream_chunks_lines (e : Engine) (s : DomParser) (c : ParserCtxt)
    (ls : List (List Byte)) (last : List Byte) (hc : e.ctxt = some c)
    (hls : ∀ l ∈ ls, newline ∉ l) (hlast : newline ∉ last) :
    chunks (parse_stream e (stream_of_lines ls ++ last) s).self.calls
      = chunks s.calls
        ++ (ls ++ (if last = [] then [] else [last])).map
            (fun l => (l ++ [newline], narrow_int (l.length + 1), 0))
        ++ [([], 0, 1)] := by
  rw [parse_stream_chunks e _ s c hc]
  unfold stream_fed
  rw [feed_chunks_lines e _ ls last hls hlast, chunks_push]

/-- When every line with its newline is shorter than 2^31 bytes, the sizes passed are the
lengths. -/
theorem sizes_fit (ls : List (List Byte)) (last : List Byte)
    (hfit : ∀ l ∈ ls, l.length + 1 < 2147483648) (hlastfit : last.length + 1 < 2147483648) :
    (ls ++ (if last = [] then [] else [last])).map
        (fun l => (l ++ [newline], narrow_int (l.length + 1), (0 : Int)))
      = (ls ++ (if last = [] then [] else [last])).map
        (fun l => (l ++ [newline], ((l.length + 1 : Nat) : Int), (0 : Int))) := by
  apply List.map_congr_left
  intro l hl
  have hlt : l.length + 1 < 2147483648 := by
    rcases List.mem_append.mp hl with h | h
    · exact hfit l h
    · by_cases h0 : last = []
      · rw [if_pos h0] at h
        exact absurd h (List.not_mem_nil l)
      · rw [if_neg h0] at h
        rw [List.mem_singleton.mp h]
        exact hlastfit
  rw [narrow_int_of_lt _ hlt]

/-- The feed calls of `parse_stream` on a stream of one line ended by a newline. -/
theorem parse_stream_one_line (e : Engine) (s : DomParser) (c : ParserCtxt) (l : List Byte)
    (hc : e.ctxt = some c) (hl : newline ∉ l) :
    chunks (parse_stream e (l ++ [newline]) s).self.calls
      = chunks s.calls
        ++ [(l ++ [newline], narrow_int (l.length + 1), 0), ([], 0, 1)] := by
  have h := parse_stream_chunks_lines e s c [l] [] hc
    (fun x hx => by rw [List.mem_singleton.mp hx]; exact hl) (List.not_mem_nil _)
  have hs : stream_of_lines [l] ++ [] = l ++ [newline] := by simp [stream_of_lines]
  rw [hs] at h
  rw [h]
  simp

theorem long_line_length : long_line.length = 2147483647 := by
  unfold long_line
  exact List.length_replicate _ _

theorem long_line_newline : newline ∉ long_line := by
  unfold long_line
  intro h
  have h2 := List.eq_of_mem_replicate h
  exact absurd h2 (by decide)

/-- The feed calls of `parse_stream` on the stream of the one line `long_line`, ended by
a newline: the size passed with the line is -2^31. -/
theorem long_line_chunks :
    chunks (parse_stream engine_good (long_line ++ [newline]) session_fresh).self.calls
      = [(long_line ++ [newline], -2147483648, 0), ([], 0, 1)] := by
  have h := parse_stream_one_line engine_good session_fresh sample_ctxt long_line rfl
    long_line_newline
  rw [long_line_length] at h
  have hn : narrow_int (2147483647 + 1) = -2147483648 := by decide
  rw [hn] at h
  exact h

/-- C7 as stated fails for a line of 2^31 - 1 bytes: with its newline the payload of the
feed call has 2^31 bytes, and the length the call carries is -2^31, not 2^31. -/
theorem C7_long_line_length_wraps :
    (long_line ++ [newline]).length = 2147483648
    ∧ chunks (parse_stream engine_good (long_line ++ [newline]) session_fresh).self.calls
      = [(long_line ++ [newline], -2147483648, 0), ([], 0, 1)] := by
  refine ⟨?_, long_line_chunks⟩
  rw [List.length_append, long_line_length]
  rfl

/-- C7, amended. The stream holds the lines `ls`, each ended by a newline, and then a
last line `last` without a newline (no such line when `last` is empty); no line contains
a newline, and every line is shorter than 2^31 - 1 bytes, so that its length plus 1 fits
the `int` size of the engine. Whatever codes the engine returns, the feeding part of
`parse_stream` (lines 203-222) makes these feed calls, in order: for every line one call
with the line followed by one newline, the length of the line plus 1 and the
end-of-input flag 0; then one call with an empty payload, length 0 and the end-of-input
flag 1. These are the feed calls of `parse_stream` whenever the engine creates the push
context. -/
theorem C7_feed_protocol (e : Engine) (s : DomParser)
    (ls : List (List Byte)) (last : List Byte)
    (hls : ∀ l ∈ ls, newline ∉ l) (hlast : newline ∉ last)
    (hfit : ∀ l ∈ ls, l.length + 1 < 2147483648) (hlastfit : last.length + 1 < 2147483648) :
    chunks (feed e (stream_of_lines ls ++ last) s).self.calls
      = chunks s.calls
        ++ (ls ++ (if last = [] then [] else [last])).map
            (fun l => (l ++ [newline], ((l.length + 1 : Nat) : Int), 0))
        ++ [([], 0, 1)]
    ∧ ∀ c, e.ctxt = some c →
      chunks (parse_stream e (stream_of_lines ls ++ last) s).self.calls
        = chunks s.calls
          ++ (ls ++ (if last = [] then [] else [last])).map
              (fun l => (l ++ [newline], ((l.length + 1 : Nat) : Int), 0))
          ++ [([], 0, 1)] := by
  refine ⟨?_, ?_⟩
  · rw [feed_chunks_lines e s ls last hls hlast, sizes_fit ls last hfit hlastfit]
  · intro c hc
    rw [parse_stream_chunks_lines e s c ls last hc hls hlast,
      sizes_fit ls last hfit hlastfit]

/-- C7, amended, at a concrete input: the line `<a>` ended by a newline and the last line
`</a>` without one, fed by an engine that returns error codes. Three feed calls are
made, the second with the newline that the stream did not have. -/
theorem C7_feed_protocol_witness :
    chunks (parse_stream engine_code_only sample_open_stream session_fresh).self.calls
      = [([60, 97, 62, 10], 4, 0), ([60, 47, 97, 62, 10], 5, 0), ([], 0, 1)] :=
  (C7_feed_protocol engine_code_only session_fresh
    [[60, 97, 62]] [60, 47, 97, 62] (by decide) (by decide) (by decide) (by decide)).2
    sample_ctxt rfl

/-! ## C8: the remembered code and the diagnostic of the streamed path -/

/-- C8. The engine creates the push context and no exception is pending. When the feeding
part of `parse_stream` is over, `firstParseError` is the earliest code different from
`XML_ERR_OK` in the sequence of the codes returned by the feed calls of this parse, the
terminating call included (`XML_ERR_OK` when there is none), the sequence having one code
for each feed call. If the aggregated diagnostic is not empty or that code is not
`XML_ERR_OK`, `parse_stream` releases the session and throws the content `parse_error`
whose message is the diagnostic when it is not empty, and otherwise
"Error code from xmlParseChunk(): " followed by the decimal form of the code. If not,
no content error is thrown: `parse_stream` is the finish step. -/
theorem C8_first_error (e : Engine) (inp : List Byte) (s : DomParser) (c : ParserCtxt)
    (hc : e.ctxt = some c) (hpend : e.pending = none) :
    (stream_fed e inp s).firstParseError
        = first_error ((List.range (stream_fed e inp s).count).map e.parseChunk)
    ∧ (chunks (stream_fed e inp s).self.calls).length
        = (chunks s.calls).length + (stream_fed e inp s).count
    ∧ ((e.parser_error ≠ "" ∨ (stream_fed e inp s).firstParseError ≠ XML_ERR_OK) →
        parse_stream e inp s =
          ⟨some (Exc.parse_error
            (if e.parser_error ≠ "" then e.parser_error
             else "Error code from xmlParseChunk(): "
                    ++ toString (stream_fed e inp s).firstParseError)),
           release_underlying (stream_fed e inp s).self⟩)
    ∧ (¬ (e.parser_error ≠ "" ∨ (stream_fed e inp s).firstParseError ≠ XML_ERR_OK) →
        parse_stream e inp s
          = check_xinclude_and_finish_parsing e (stream_fed e inp s).self) := by
  refine ⟨feed_first e inp _, ?_, ?_, ?_⟩
  · unfold stream_fed
    rw [feed_count, chunks_push]
  · intro hcond
    rw [parse_stream_eq e inp s c hc, hpend]
    simp only
    by_cases herr : e.parser_error = ""
    · have hbad : (stream_fed e inp s).firstParseError ≠ XML_ERR_OK :=
        hcond.resolve_left (fun h => h herr)
      rw [if_pos ⟨herr, hbad⟩, if_neg (fun h => h herr)]
      rfl
    · rw [if_neg (fun h => herr h.1), if_pos herr, if_pos herr]
      rfl
  · intro hcond
    have herr : e.parser_error = "" := by
      by_contra h
      exact hcond (Or.inl h)
    have hok : (stream_fed e inp s).firstParseError = XML_ERR_OK := by
      by_contra h
      exact hcond (Or.inr h)
    rw [parse_stream_eq e inp s c hc, hpend]
    simp only
    rw [if_neg (fun h => h.2 hok), if_neg (fun h => h herr)]
    rfl

/-- C8 at a concrete input: three lines and the terminating chunk, the engine answering
0, 5, 0 and 76 and recording no structured error. The remembered code is 5, the first of
the two error codes, and the message of the `parse_error` names it. -/
theorem C8_first_error_witness :
    (stream_fed engine_code_only sample_stream session_fresh).firstParseError = 5
    ∧ (parse_stream engine_code_only sample_stream session_fresh).thrown
        = some (Exc.parse_error "Error code from xmlParseChunk(): 5") :=
  ⟨by decide,
   (congrArg Ret.thrown
      ((C8_first_error engine_code_only sample_stream session_fresh sample_ctxt
          rfl rfl).2.2.1 (Or.inr (by decide)))).trans (by decide)⟩

/-! ## C10: the bytes of the streamed mode -/

/-- A buffer passed with its own length is handed over whole. -/
theorem received_all (b : List Byte) : received b ((b.length : Nat) : Int) = b := by
  unfold received
  rw [Int.toNat_ofNat]
  exact List.take_length b

/-- Nothing is handed over with a size that is not positive. -/
theorem received_nonpos (b : List Byte) (z : Int) (hz : z ≤ 0) : received b z = [] := by
  unfold received
  rw [Int.toNat_of_nonpos hz]
  rfl

theorem stream_of_lines_append (a b : List (List Byte)) :
    stream_of_lines (a ++ b) = stream_of_lines a ++ stream_of_lines b := by
  simp [stream_of_lines]

/-- A stream of newline-ended lines is empty or ends with a newline. -/
theorem stream_of_lines_end (ls : List (List Byte)) :
    stream_of_lines ls = [] ∨ (stream_of_lines ls).getLast? = some newline := by
  induction ls using List.reverseRecOn with
  | nil => left; rfl
  | append_singleton ls l _ =>
    right
    rw [stream_of_lines_append]
    have h : stream_of_lines [l] = l ++ [newline] := by simp [stream_of_lines]
    rw [h, ← List.append_assoc, List.getLast?_concat]

/-- Every byte string is made of newline-free lines, each ended by a newline, and of a
newline-free last line without one. -/
theorem lines_exist (inp : List Byte) :
    ∃ ls last, (∀ l ∈ ls, newline ∉ l) ∧ newline ∉ last
      ∧ inp = stream_of_lines ls ++ last := by
  induction inp with
  | nil => exact ⟨[], [], by simp, by simp, rfl⟩
  | cons b bs ih =>
    obtain ⟨ls, last, hls, hlast, hinp⟩ := ih
    by_cases hb : b = newline
    · refine ⟨[] :: ls, last, ?_, hlast, ?_⟩
      · intro l hl
        rcases List.mem_cons.mp hl with h | h
        · rw [h]; simp
        · exact hls l h
      · rw [hinp, hb]
        simp [stream_of_lines]
    · cases ls with
      | nil =>
        refine ⟨[], b :: last, by simp, ?_, ?_⟩
        · intro h
          rcases List.mem_cons.mp h with h1 | h1
          · exact hb h1.symm
          · exact hlast h1
        · rw [hinp]
          simp [stream_of_lines]
      | cons l0 rest =>
        refine ⟨(b :: l0) :: rest, last, ?_, hlast, ?_⟩
        · intro l hl
          rcases List.mem_cons.mp hl with h | h
          · rw [h]
            intro hm
            rcases List.mem_cons.mp hm with h1 | h1
            · exact hb h1.symm
            · exact hls l0 (by simp) h1
          · exact hls l (by simp [h])
        · rw [hinp]
          simp [stream_of_lines]

/-- The input with a newline added when it does not end with one, in terms of its
lines. -/
theorem framed_lines (ls : List (List Byte)) (last : List Byte) (hlast : newline ∉ last) :
    (if stream_of_lines ls ++ last = []
        ∨ (stream_of_lines ls ++ last).getLast? = some newline
      then stream_of_lines ls ++ last
      else stream_of_lines ls ++ last ++ [newline])
      = stream_of_lines (ls ++ (if last = [] then [] else [last])) := by
  by_cases h0 : last = []
  · subst h0
    rw [if_pos rfl, List.append_nil, List.append_nil, if_pos (stream_of_lines_end ls)]
  · rw [if_neg h0, stream_of_lines_append]
    have hcond : ¬ (stream_of_lines ls ++ last = []
        ∨ (stream_of_lines ls ++ last).getLast? = some newline) := by
      rintro (h | h)
      · exact h0 (List.append_eq_nil.mp h).2
      · rw [List.getLast?_append, List.getLast?_eq_getLast last h0] at h
        have h2 : last.getLast h0 = newline := by simpa using h
        exact hlast (h2 ▸ List.getLast_mem h0)
    rw [if_neg hcond]
    simp [stream_of_lines]

/-- The bytes handed over by feed calls that each pass a line, its newline and the
length of both. -/
theorem payload_lines (lines : List (List Byte)) :
    ((lines.map (fun l => (l ++ [newline], ((l.length + 1 : Nat) : Int), (0 : Int)))).map
        (fun c => received c.1 c.2.1)).flatten
      = stream_of_lines lines := by
  induction lines with
  | nil => rfl
  | cons l ls ih =>
    have hl : received (l ++ [newline]) ((l.length + 1 : Nat) : Int) = l ++ [newline] := by
      have h := received_all (l ++ [newline])
      rw [List.length_append] at h
      exact h
    simp only [List.map_cons, List.flatten_cons, hl, ih]
    simp [stream_of_lines]

/-- C10 as stated fails for an input with a line of 2^31 - 1 bytes: the input ends with a
newline, the size passed with the line and its newline is -2^31, and the bytes the feed
calls hand to the engine are none, not the input. -/
theorem C10_long_line_not_received :
    (long_line ++ [newline]).getLast? = some newline
    ∧ long_line ++ [newline] ≠ []
    ∧ payload (parse_stream engine_good (long_line ++ [newline]) session_fresh).self.calls
        = [] := by
  refine ⟨List.getLast?_concat long_line, by simp, ?_⟩
  unfold payload
  rw [long_line_chunks]
  simp only [List.map_cons, List.map_nil, List.flatten_cons, List.flatten_nil]
  rw [received_nonpos _ (-2147483648) (by decide), received_nonpos _ 0 (by decide)]
  rfl

/-- C10, amended. The input `inp` is made of the lines `ls`, each ended by a newline, and
of a last line `last` without one (every byte string is, `lines_exist`); every line is
shorter than 2^31 - 1 bytes. When the engine creates the push context, the bytes the feed
calls of `parse_stream` hand to the engine, one call after the other, are the input
itself when it is empty or ends with a newline, and the input followed by one newline
otherwise. When the input is shorter than 2^31 bytes, the buffer that `parse_memory_raw`
hands to the engine is the input; so for such an input that is empty or ends with a
newline the streamed mode feeds exactly the bytes of that buffer. -/
theorem C10_stream_bytes (e1 e2 : Engine) (s1 s2 : DomParser) (c : ParserCtxt)
    (inp : List Byte) (ls : List (List Byte)) (last : List Byte)
    (hc : e1.ctxt = some c) (hinp : inp = stream_of_lines ls ++ last)
    (hls : ∀ l ∈ ls, newline ∉ l) (hlast : newline ∉ last)
    (hfit : ∀ l ∈ ls, l.length + 1 < 2147483648) (hlastfit : last.length + 1 < 2147483648) :
    payload (parse_stream e1 inp s1).self.calls
        = payload s1.calls ++
          (if inp = [] ∨ inp.getLast? = some newline then inp else inp ++ [newline])
    ∧ (inp.length < 2147483648 →
        buffers (parse_memory_raw e2 inp s2).self.calls = buffers s2.calls ++ [inp])
    ∧ ((inp = [] ∨ inp.getLast? = some newline) →
        payload (parse_stream e1 inp s1).self.calls = payload s1.calls ++ inp) := by
  have hmain : payload (parse_stream e1 inp s1).self.calls
      = payload s1.calls ++
        (if inp = [] ∨ inp.getLast? = some newline then inp else inp ++ [newline]) := by
    subst hinp
    rw [framed_lines ls last hlast]
    unfold payload
    rw [parse_stream_chunks_lines e1 s1 c ls last hc hls hlast,
      sizes_fit ls last hfit hlastfit]
    rw [List.map_append, List.map_append, List.flatten_append, List.flatten_append,
      payload_lines]
    have hfin : ([([], 0, 1)] : List (List Byte × Int × Int)).map
        (fun c => received c.1 c.2.1) = [[]] := by
      rw [List.map_singleton, received_nonpos [] 0 (le_refl 0)]
    rw [hfin]
    simp
  refine ⟨hmain, ?_, ?_⟩
  · intro hlen
    rw [parse_memory_raw_buffers, narrow_int_of_lt _ hlen, received_all]
  · intro hcond
    rw [hmain, if_pos hcond]

/-- C10, amended, at a concrete input: the three lines `<a>`, `x` and `</a>`, each ended
by a newline. The streamed mode feeds the eleven bytes of the input, and they are the
buffer of the whole-buffer mode. -/
theorem C10_stream_bytes_witness :
    payload (parse_stream engine_good sample_stream session_fresh).self.calls = sample_stream
    ∧ buffers (parse_memory_raw engine_good sample_stream session_fresh).self.calls
        = [sample_stream] :=
  ⟨(C10_stream_bytes engine_good engine_good session_fresh session_fresh sample_ctxt
      sample_stream [[60, 97, 62], [120], [60, 47, 97, 62]] [] rfl (by decide)
      (by decide) (by decide) (by decide) (by decide)).2.2 (Or.inr (by decide)),
   (C10_stream_bytes engine_good engine_good session_fresh session_fresh sample_ctxt
      sample_stream [[60, 97, 62], [120], [60, 47, 97, 62]] [] rfl (by decide)
      (by decide) (by decide) (by decide) (by decide)).2.1 (by decide)⟩

end xmlpp
